import Mathlib

/-!
Verification of the commit-x AI orchestration core.

This file shallowly embeds the parts of the repository that the claims
C1..C10 are about:

* `src/services/ai.ts` — `parseAggregatedResponse`, `validateCommitMessageFormat`,
  `generateFallbackMessage`, `generateAggregatedCommits`,
  `executeAggregatedCommitGeneration` (its validation stage);
* `src/utils/ai-cache.ts` (shipped inside `dependency-analyzer.ts` in the
  snapshot) — `PersistentAICache.generateKey` / `hashContent` / `get` / `set` /
  `isValidEntry`, and `RequestBatcher.batch`;
* `src/constants/ui.ts` — `COMMIT_MESSAGE_PATTERNS`;
* `src/constants/security.ts` — `DEFAULT_LIMITS.maxApiRequestSize`;
* `src/schemas/validation.ts` — `GitDiffSchema` / `DiffContentSchema` bounds.

JavaScript machinery is modelled as follows: strings are Lean `String`s
(JS UTF-16 code-unit details are noted where they could matter), JS `Map`s
are association lists with overwrite-on-set, `Date.now()` is an explicit
`Int` parameter, promises/async are modelled by explicit state passing and
event traces, and `throw`/`catch` by `Except`.  Node builtins
(`crypto.createHash("sha256")`, `JSON.parse`, `JSON.stringify`) are modelled
by executable Lean implementations of the corresponding specifications.
-/

set_option autoImplicit false

namespace CommitX

/-! ## JavaScript string helpers -/

/-- Characters matched by the JS regex class `\s` (ECMAScript WhiteSpace and
LineTerminator); the common members are listed explicitly. -/
def isJsWs (c : Char) : Bool :=
  c = ' ' || c = '\t' || c = '\n' || c = '\r' || c = '\x0b' || c = '\x0c' ||
  c = ' ' || c = ' ' || (' ' ≤ c && c ≤ ' ') ||
  c = ' ' || c = ' ' || c = ' ' || c = ' ' ||
  c = '　' || c = '﻿'

/-- Helper for `replace(/\s+/g, " ")`: the flag records whether the previous
character belonged to a whitespace run (whose single space is already
emitted). -/
def collapseWsAux : Bool → List Char → List Char
  | _, [] => []
  | prevWs, c :: rest =>
    if isJsWs c then
      if prevWs then collapseWsAux true rest
      else ' ' :: collapseWsAux true rest
    else c :: collapseWsAux false rest

/-- One step of `replace(/\s+/g, " ")`: every maximal run of whitespace
becomes a single space. -/
def collapseWsList (l : List Char) : List Char := collapseWsAux false l

/-- Model of `String.prototype.replace(/\s+/g, " ")`. -/
def wsCollapse (s : String) : String := String.mk (collapseWsList s.data)

/-- Model of `replace(/^\s+|\s+$/g, "")` (also of `String.prototype.trim()`):
drop leading and trailing whitespace. -/
def jsTrim (s : String) : String :=
  String.mk (((s.data.dropWhile isJsWs).reverse.dropWhile isJsWs).reverse)

/-- Model of `String.prototype.toLowerCase()`.  Lean's `Char.toLower` only
lowers ASCII; the repository only feeds it ASCII-relevant data (diff text and
fixed prefix tokens), so this is faithful where it matters. -/
def jsToLower (s : String) : String := String.mk (s.data.map Char.toLower)

/-- Model of `String.prototype.startsWith`. -/
def jsStartsWith (s pre : String) : Bool := pre.data.isPrefixOf s.data

/-- Model of `String.prototype.split("/")` on the character list: split at
every separator, keeping empty segments, never returning an empty list. -/
def splitSlash : List Char → List (List Char)
  | [] => [[]]
  | c :: rest =>
    if c = '/' then [] :: splitSlash rest
    else
      match splitSlash rest with
      | h :: t => (c :: h) :: t
      | [] => [[c]]

/-- UTF-8 encoding of one character (what Node's `hash.update(string)` uses). -/
def utf8EncodeCharNat (c : Char) : List Nat :=
  let n := c.toNat
  if n < 0x80 then [n]
  else if n < 0x800 then [0xc0 ||| (n >>> 6), 0x80 ||| (n &&& 0x3f)]
  else if n < 0x10000 then
    [0xe0 ||| (n >>> 12), 0x80 ||| ((n >>> 6) &&& 0x3f), 0x80 ||| (n &&& 0x3f)]
  else
    [0xf0 ||| (n >>> 18), 0x80 ||| ((n >>> 12) &&& 0x3f),
     0x80 ||| ((n >>> 6) &&& 0x3f), 0x80 ||| (n &&& 0x3f)]

/-- UTF-8 bytes of a string, as `Nat`s below 256. -/
def utf8Bytes (s : String) : List Nat := s.data.flatMap utf8EncodeCharNat

/-! ## SHA-256 (model of Node `crypto.createHash("sha256")`)

All 32-bit words are `Nat`s reduced mod `2^32`. -/

def w32 (n : Nat) : Nat := n % 4294967296

def rotr32 (n x : Nat) : Nat := w32 ((x >>> n) ||| (x <<< (32 - n)))

def shaCh (x y z : Nat) : Nat := (x &&& y) ^^^ ((x ^^^ 0xffffffff) &&& z)

def shaMaj (x y z : Nat) : Nat := (x &&& y) ^^^ (x &&& z) ^^^ (y &&& z)

def shaS0 (x : Nat) : Nat := rotr32 2 x ^^^ rotr32 13 x ^^^ rotr32 22 x

def shaS1 (x : Nat) : Nat := rotr32 6 x ^^^ rotr32 11 x ^^^ rotr32 25 x

def shas0 (x : Nat) : Nat := rotr32 7 x ^^^ rotr32 18 x ^^^ (x >>> 3)

def shas1 (x : Nat) : Nat := rotr32 17 x ^^^ rotr32 19 x ^^^ (x >>> 10)

def shaH0 : List Nat :=
  [1779033703, 3144134277, 1013904242, 2773480762,
   1359893119, 2600822924, 528734635, 1541459225]

def shaK : List Nat :=
  [1116352408, 1899447441, 3049323471, 3921009573, 961987163,
   1508970993, 2453635748, 2870763221, 3624381080, 310598401,
   607225278, 1426881987, 1925078388, 2162078206, 2614888103,
   3248222580, 3835390401, 4022224774, 264347078, 604807628,
   770255983, 1249150122, 1555081692, 1996064986, 2554220882,
   2821834349, 2952996808, 3210313671, 3336571891, 3584528711,
   113926993, 338241895, 666307205, 773529912, 1294757372,
   1396182291, 1695183700, 1986661051, 2177026350, 2456956037,
   2730485921, 2820302411, 3259730800, 3345764771, 3516065817,
   3600352804, 4094571909, 275423344, 430227734, 506948616,
   659060556, 883997877, 958139571, 1322822218, 1537002063,
   1747873779, 1955562222, 2024104815, 2227730452, 2361852424,
   2428436474, 2756734187, 3204031479, 3329325298]

/-- Big-endian 8-byte encoding of a (64-bit) number. -/
def be64 (n : Nat) : List Nat :=
  [(n >>> 56) % 256, (n >>> 48) % 256, (n >>> 40) % 256, (n >>> 32) % 256,
   (n >>> 24) % 256, (n >>> 16) % 256, (n >>> 8) % 256, n % 256]

/-- SHA-256 padding: append `0x80`, zero bytes up to 56 mod 64, then the
bit length big-endian. -/
def sha256pad (msg : List Nat) : List Nat :=
  msg ++ [0x80] ++ List.replicate ((119 - msg.length % 64) % 64) 0 ++
    be64 (8 * msg.length)

/-- Split into 64-byte blocks. -/
def chunks64 : List Nat → List (List Nat)
  | [] => []
  | b :: l => (b :: l).take 64 :: chunks64 ((b :: l).drop 64)
termination_by l => l.length
decreasing_by simp [List.length_drop]; omega

/-- Pack consecutive 4-byte groups into big-endian 32-bit words. -/
def toWords : List Nat → List Nat
  | b0 :: b1 :: b2 :: b3 :: rest =>
    (((b0 * 256 + b1) * 256 + b2) * 256 + b3) :: toWords rest
  | _ => []

/-- Extend the 16-word block to the full 64-word message schedule. -/
def extendSchedule (ws : List Nat) : Nat → List Nat
  | 0 => ws
  | n + 1 =>
    let cur := extendSchedule ws n
    let g := fun k => cur.getD (cur.length - k) 0
    cur ++ [w32 (shas1 (g 2) + g 7 + shas0 (g 15) + g 16)]

/-- One round of the SHA-256 compression function on the 8-word state. -/
def compressStep (st : List Nat) (kw : Nat × Nat) : List Nat :=
  match st with
  | [a, b, c, d, e, f, g, h] =>
    let t1 := w32 (h + shaS1 e + shaCh e f g + kw.1 + kw.2)
    let t2 := w32 (shaS0 a + shaMaj a b c)
    [w32 (t1 + t2), a, b, c, w32 (d + t1), e, f, g]
  | _ => st

/-- Process one 64-byte block. -/
def compressBlock (H : List Nat) (block : List Nat) : List Nat :=
  let st := (shaK.zip (extendSchedule (toWords block) 48)).foldl compressStep H
  (H.zip st).map fun p => w32 (p.1 + p.2)

/-- SHA-256 digest (32 bytes) of a byte sequence. -/
def sha256bytes (msg : List Nat) : List Nat :=
  ((chunks64 (sha256pad msg)).foldl compressBlock shaH0).flatMap
    fun w => [(w >>> 24) % 256, (w >>> 16) % 256, (w >>> 8) % 256, w % 256]

def hexDigitChar (n : Nat) : Char := "0123456789abcdef".data.getD n 'x'

def byteHexChars (b : Nat) : List Char := [hexDigitChar (b / 16), hexDigitChar (b % 16)]

/-- Model of `createHash("sha256").update(utf8 input).digest("hex")`,
as a character list. -/
def sha256hexChars (msg : List Nat) : List Char :=
  (sha256bytes msg).flatMap byteHexChars

/-! ## Data model (`src/types/common.ts`, `src/schemas/validation.ts`) -/

/-- A ChangeRecord ("diff").  `GitDiffSchema` constrains `additions` and
`deletions` to non-negative integers, so they are `Nat`s here. -/
structure GitDiff where
  file : String
  additions : Nat
  deletions : Nat
  changes : String
  isNew : Bool := false
  isDeleted : Bool := false
  isRenamed : Bool := false
  oldPath : Option String := none
deriving DecidableEq, Repr

structure CommitSuggestion where
  message : String
  description : Option String := none
  confidence : Rat
deriving DecidableEq, Repr

structure CommitGroup where
  files : List String
  message : String
  description : Option String := none
  confidence : Rat
deriving DecidableEq, Repr

/-! ## Cache key generation (`PersistentAICache.generateKey` / `hashContent`) -/

/-- The content normalization inside `hashContent`:
`.replace(/\s+/g, " ").replace(/^\s+|\s+$/g, "").toLowerCase()`. -/
def normalizedChanges (content : String) : String :=
  jsToLower (jsTrim (wsCollapse content))

/-- `hashContent`: sha256 hex digest of the normalized content, first 8
characters (`.digest("hex").substring(0, 8)`). -/
def hashContent (content : String) : String :=
  String.mk ((sha256hexChars (utf8Bytes (normalizedChanges content))).take 8)

/-- `ratio.toFixed(2)` for `ratio = additions / (additions + deletions)`
(0 when there are no changes).  The exact rational is rounded half-up to two
decimal places; IEEE-double artifacts of the source (at most one ulp) are
immaterial to the stated properties, which only compare equal inputs. -/
def ratioToFixed2 (a d : Nat) : String :=
  if a + d = 0 then "0.00"
  else
    let n := (200 * a + (a + d)) / (2 * (a + d))
    if n = 100 then "1.00"
    else String.mk ['0', '.', hexDigitChar (n / 10), hexDigitChar (n % 10)]

/-- One entry of `keyComponents`:
``` `${diff.file}:${diff.additions}:${diff.deletions}:${ratio.toFixed(2)}:${contentHash}` ``` -/
def keyComponent (d : GitDiff) : String :=
  d.file ++ ":" ++ toString d.additions ++ ":" ++ toString d.deletions ++ ":" ++
    ratioToFixed2 d.additions d.deletions ++ ":" ++ hashContent d.changes

/-- `PersistentAICache.generateKey`: sort the per-file composites (JS
`Array.prototype.sort`, lexicographic on strings — modelled by insertion sort
under Lean's `≤` on `String`, which agrees with UTF-16 code-unit order on all
BMP text), join with `"|"`, sha256, keep 16 hex characters. -/
def generateKey (diffs : List GitDiff) : String :=
  let keyComponents := (diffs.map keyComponent).insertionSort (· ≤ ·)
  String.mk ((sha256hexChars (utf8Bytes (String.intercalate "|" keyComponents))).take 16)

/-! ## Association lists with JS `Map` semantics -/

/-- `Map.prototype.get` (`none` for a missing key): first matching binding. -/
def getAssoc {α : Type} : List (String × α) → String → Option α
  | [], _ => none
  | p :: rest, k => if p.1 = k then some p.2 else getAssoc rest k

/-- `Map.prototype.set`: overwrite the binding if the key exists, else append. -/
def setAssoc {α : Type} (m : List (String × α)) (k : String) (v : α) :
    List (String × α) :=
  if m.any (fun p => p.1 = k) then m.map fun p => if p.1 = k then (k, v) else p
  else m ++ [(k, v)]

/-- `Map.prototype.delete`. -/
def eraseAssoc {α : Type} (m : List (String × α)) (k : String) :
    List (String × α) :=
  m.filter fun p => !(p.1 = k)

/-! ## JSON (model of the platform `JSON.parse`) -/

inductive Json where
  | null
  | bool (b : Bool)
  | num (q : Rat)
  | str (s : String)
  | arr (items : List Json)
  | obj (fields : List (String × Json))
deriving Repr

/-- JSON insignificant whitespace. -/
def skipJsonWs (l : List Char) : List Char :=
  l.dropWhile fun c => c = ' ' || c = '\t' || c = '\n' || c = '\r'

def hexVal (c : Char) : Option Nat :=
  if '0' ≤ c && c ≤ '9' then some (c.toNat - 48)
  else if 'a' ≤ c && c ≤ 'f' then some (c.toNat - 87)
  else if 'A' ≤ c && c ≤ 'F' then some (c.toNat - 55)
  else none

/-- Body of a JSON string (after the opening quote), returning the decoded
characters and the input following the closing quote. -/
def parseStringBody : Nat → List Char → Option (List Char × List Char)
  | 0, _ => none
  | fuel + 1, l =>
    match l with
    | [] => none
    | '"' :: rest => some ([], rest)
    | '\\' :: e :: rest =>
      (match e with
       | '"' => (parseStringBody fuel rest).map fun p => ('"' :: p.1, p.2)
       | '\\' => (parseStringBody fuel rest).map fun p => ('\\' :: p.1, p.2)
       | '/' => (parseStringBody fuel rest).map fun p => ('/' :: p.1, p.2)
       | 'b' => (parseStringBody fuel rest).map fun p => ('\x08' :: p.1, p.2)
       | 'f' => (parseStringBody fuel rest).map fun p => ('\x0c' :: p.1, p.2)
       | 'n' => (parseStringBody fuel rest).map fun p => ('\n' :: p.1, p.2)
       | 'r' => (parseStringBody fuel rest).map fun p => ('\r' :: p.1, p.2)
       | 't' => (parseStringBody fuel rest).map fun p => ('\t' :: p.1, p.2)
       | 'u' =>
         (match rest with
          | h1 :: h2 :: h3 :: h4 :: rest2 =>
            match hexVal h1, hexVal h2, hexVal h3, hexVal h4 with
            | some v1, some v2, some v3, some v4 =>
              (parseStringBody fuel rest2).map fun p =>
                (Char.ofNat (((v1 * 16 + v2) * 16 + v3) * 16 + v4) :: p.1, p.2)
            | _, _, _, _ => none
          | _ => none)
       | _ => none)
    | c :: rest =>
      if c.toNat < 32 then none
      else (parseStringBody fuel rest).map fun p => (c :: p.1, p.2)

def digitsToNat (ds : List Char) : Nat :=
  ds.foldl (fun a c => a * 10 + (c.toNat - 48)) 0

def isDigit (c : Char) : Bool := '0' ≤ c && c ≤ '9'

/-- JSON number grammar `-? int frac? exp?`, evaluated exactly as a rational. -/
def parseNumber (l : List Char) : Option (Rat × List Char) :=
  let (neg, l1) := match l with
    | '-' :: rest => (true, rest)
    | _ => (false, l)
  let intDigits := l1.takeWhile isDigit
  let l2 := l1.dropWhile isDigit
  if intDigits = [] then none
  else if intDigits.head? = some '0' ∧ intDigits.length > 1 then none
  else
    let ip : Rat := (digitsToNat intDigits : Nat)
    let (frac, l3) := match l2 with
      | '.' :: rest =>
        let fd := rest.takeWhile isDigit
        (if fd = [] then none else
          some ((digitsToNat fd : Rat) / ((10 : Rat) ^ fd.length)), rest.dropWhile isDigit)
      | _ => (some 0, l2)
    match frac with
    | none => none
    | some f =>
      let base := ip + f
      let (ex, l4) : Option Int × List Char := match l3 with
        | 'e' :: rest => parseExpDigits rest
        | 'E' :: rest => parseExpDigits rest
        | _ => (some 0, l3)
      match ex with
      | none => none
      | some e =>
        let v := base * (10 : Rat) ^ e
        some (if neg then -v else v, l4)
where
  parseExpDigits (rest : List Char) : Option Int × List Char :=
    let (eneg, r1) := match rest with
      | '+' :: r => (false, r)
      | '-' :: r => (true, r)
      | _ => (false, rest)
    let ed := r1.takeWhile isDigit
    if ed = [] then (none, r1)
    else ((if eneg then some (-(digitsToNat ed : Int)) else some (digitsToNat ed : Int)),
          r1.dropWhile isDigit)

mutual

def parseVal : Nat → List Char → Option (Json × List Char)
  | 0, _ => none
  | n + 1, l =>
    match skipJsonWs l with
    | 'n' :: 'u' :: 'l' :: 'l' :: rest => some (.null, rest)
    | 't' :: 'r' :: 'u' :: 'e' :: rest => some (.bool true, rest)
    | 'f' :: 'a' :: 'l' :: 's' :: 'e' :: rest => some (.bool false, rest)
    | '"' :: rest =>
      (parseStringBody (rest.length + 1) rest).map fun p => (.str (String.mk p.1), p.2)
    | '[' :: rest =>
      (match skipJsonWs rest with
       | ']' :: rest2 => some (.arr [], rest2)
       | _ => parseArrItems n rest [])
    | '{' :: rest =>
      (match skipJsonWs rest with
       | '}' :: rest2 => some (.obj [], rest2)
       | _ => parseObjItems n rest [])
    | l2 => (parseNumber l2).map fun p => (.num p.1, p.2)

def parseArrItems : Nat → List Char → List Json → Option (Json × List Char)
  | 0, _, _ => none
  | n + 1, l, acc =>
    match parseVal n l with
    | none => none
    | some (v, rest) =>
      match skipJsonWs rest with
      | ',' :: rest2 => parseArrItems n rest2 (acc ++ [v])
      | ']' :: rest2 => some (.arr (acc ++ [v]), rest2)
      | _ => none

def parseObjItems : Nat → List Char → List (String × Json) → Option (Json × List Char)
  | 0, _, _ => none
  | n + 1, l, acc =>
    match skipJsonWs l with
    | '"' :: rest =>
      (match parseStringBody (rest.length + 1) rest with
       | none => none
       | some (key, rest2) =>
         match skipJsonWs rest2 with
         | ':' :: rest3 =>
           (match parseVal n rest3 with
            | none => none
            | some (v, rest4) =>
              match skipJsonWs rest4 with
              | ',' :: rest5 => parseObjItems n rest5 (acc ++ [(String.mk key, v)])
              | '}' :: rest5 => some (.obj (acc ++ [(String.mk key, v)]), rest5)
              | _ => none)
         | _ => none)
    | _ => none

end

/-- Model of `JSON.parse` (returns `none` where the builtin throws a
`SyntaxError`).  The fuel is generous enough for any input; running out of
fuel only makes the model fail where the builtin might succeed, which is the
safe direction for every property stated below. -/
def jsonParse (s : String) : Option Json :=
  match parseVal (2 * s.data.length + 2) s.data with
  | some (v, rest) => if skipJsonWs rest = [] then some v else none
  | none => none

/-! ## `COMMIT_MESSAGE_PATTERNS` (`src/constants/ui.ts`) -/

/-- `COMMIT_MESSAGE_PATTERNS.AVOID_PREFIXES` (all lowercase in the source,
so `prefix.toLowerCase()` is the identity on them). -/
def avoidPrefixes : List String :=
  ["feat:", "fix:", "chore:", "refactor:", "test:", "docs:", "style:",
   "perf:", "ci:", "build:", "revert:"]

def isAsciiLetter (c : Char) : Bool :=
  ('a' ≤ c && c ≤ 'z') || ('A' ≤ c && c ≤ 'Z')

/-- After the opening parenthesis of a scoped pattern, `[^)]*\):` requires the
scope to run to the FIRST closing parenthesis, immediately followed by a
colon. -/
def scopeCloseColon : List Char → Bool
  | [] => false
  | c :: rest => if c = ')' then rest.head? = some ':' else scopeCloseColon rest

/-- Tail of the generic pattern `^[a-z]+\([^)]*\):` (with the `i` flag) after
its first letter: remaining letters, then the parenthesized scope and colon. -/
def genericScopedTail : List Char → Bool
  | [] => false
  | c :: rest =>
    if isAsciiLetter c then genericScopedTail rest
    else c = '(' && scopeCloseColon rest

/-- The final, generic entry of `CONVENTIONAL_COMMIT_PATTERNS`:
`/^[a-z]+\([^)]*\):/i`. -/
def matchesGenericScoped (l : List Char) : Bool :=
  match l with
  | c :: rest => isAsciiLetter c && genericScopedTail rest
  | [] => false

/-- Case-insensitive literal prefix match (for `/^feat\(/i` etc.; the word is
given lowercase). -/
def stripPfxCI : List Char → List Char → Option (List Char)
  | [], l => some l
  | p :: ps, c :: cs => if c.toLower = p then stripPfxCI ps cs else none
  | _ :: _, [] => none

/-- A word-specific entry of `CONVENTIONAL_COMMIT_PATTERNS`, e.g.
`/^feat\([^)]*\):/i`. -/
def matchesWordScoped (word : String) (l : List Char) : Bool :=
  match stripPfxCI word.data l with
  | some ('(' :: rest) => scopeCloseColon rest
  | _ => false

def conventionalWords : List String :=
  ["feat", "fix", "chore", "refactor", "test", "docs", "style", "perf",
   "ci", "build", "revert"]

/-- `CONVENTIONAL_COMMIT_PATTERNS.some(pattern => pattern.test(trimmed))`. -/
def hasConventionalPattern (s : String) : Bool :=
  conventionalWords.any (fun w => matchesWordScoped w s.data) ||
    matchesGenericScoped s.data

/-- Scope-and-colon part of the strip regex: `[^)]*\):\s*` after the opening
parenthesis; `none` when the regex does not match (so `replace` leaves the
string unchanged). -/
def afterScopeColonWs : List Char → Option (List Char)
  | [] => none
  | c :: rest =>
    if c = ')' then
      match rest with
      | ':' :: r => some (r.dropWhile isJsWs)
      | _ => none
    else afterScopeColonWs rest

/-- Model of `trimmed.replace(/^[a-z]+(\([^)]*\))?:\s*/i, "")`.  The optional
scope group cannot backtrack to a different closing parenthesis (the scope
excludes `)`), and when the group is present but unfollowed by `:` the
alternative without the group immediately fails on `(`, so the anchored match
is deterministic. -/
def stripConventional (s : String) : String :=
  match s.data with
  | c :: rest =>
    if isAsciiLetter c then
      let rem := rest.dropWhile isAsciiLetter
      match rem with
      | '(' :: r =>
        (match afterScopeColonWs r with
         | some r2 => String.mk r2
         | none => s)
      | ':' :: r => String.mk (r.dropWhile isJsWs)
      | _ => s
    else s
  | [] => s

/-- `corrected.charAt(0).toUpperCase() + corrected.slice(1)`. -/
def capitalizeFirst (s : String) : String :=
  match s.data with
  | c :: rest => String.mk (c.toUpper :: rest)
  | [] => s

/-! ## `AIService.validateCommitMessageFormat` -/

structure MessageValidation where
  isValid : Bool
  correctedMessage : Option String := none
deriving DecidableEq, Repr

/-- `validateCommitMessageFormat` (src/services/ai.ts:606).  The guard
`!message || typeof message !== "string"` reduces to the empty-string check in
a typed embedding. -/
def validateCommitMessageFormat (message : String) : MessageValidation :=
  if message = "" then ⟨false, none⟩
  else
    let trimmedMessage := jsTrim message
    let hasSimplePfx := avoidPrefixes.any fun p => jsStartsWith (jsToLower trimmedMessage) p
    if hasSimplePfx then ⟨false, none⟩
    else if hasConventionalPattern trimmedMessage then
      let corrected := stripConventional trimmedMessage
      if corrected ≠ "" ∧ corrected.length > 10 then
        ⟨true, some (capitalizeFirst corrected)⟩
      else ⟨false, none⟩
    else ⟨true, none⟩

/-! ## `AIService.generateFallbackMessage` -/

/-- `generateFallbackMessage` (src/services/ai.ts:128): a deterministic
message derived from the file's change shape.  `split("/").pop()` is the last
component of the path (`splitOn` never yields an empty list, so the
`?? diff.file` default is unreachable, as in JS). -/
def generateFallbackMessage (diff : GitDiff) : String :=
  let fileName := String.mk ((splitSlash diff.file.data).getLastD diff.file.data)
  if diff.isNew then "Created new " ++ fileName ++ " file with initial implementation"
  else if diff.isDeleted then "Removed " ++ fileName ++ " file as it is no longer needed"
  else if diff.additions > diff.deletions * 2 then "Added new functionality to " ++ fileName ++ " file"
  else if diff.deletions > diff.additions * 2 then "Removed unused code from " ++ fileName ++ " file"
  else "Updated " ++ fileName ++ " file with code improvements"

/-! ## `AIService.parseAggregatedResponse` -/

/-- Model of `response.match(COMMIT_MESSAGE_PATTERNS.JSON_PATTERN)` where
`JSON_PATTERN` is the greedy regex matching a brace, any characters, and a
closing brace: the leftmost-longest match runs from the FIRST opening brace to
the LAST closing brace of the whole text, and exists precisely when some
closing brace follows some opening brace. -/
def jsonExtractList (l : List Char) : Option (List Char) :=
  let fromBrace := l.dropWhile fun c => !(c = '{')
  let rev := fromBrace.reverse.dropWhile fun c => !(c = '}')
  match rev with
  | [] => none
  | _ :: _ => some rev.reverse

def jsonExtract (s : String) : Option String :=
  (jsonExtractList s.data).map String.mk

/-- JS property access `o.k`: throws on `null`, yields `undefined` (`none`)
on primitives, looks the key up on objects.  `JSON.parse` keeps the LAST of
duplicate keys, hence the reversed lookup. -/
def jsGet : Json → String → Except String (Option Json)
  | .null, _ => .error "TypeError: cannot read properties of null"
  | .obj fields, k => .ok (getAssoc fields.reverse k)
  | _, _ => .ok none

/-- JS truthiness of a possibly-undefined value. -/
def jsTruthy : Option Json → Bool
  | none => false
  | some .null => false
  | some (.bool b) => b
  | some (.num q) => decide (q ≠ 0)
  | some (.str s) => decide (s ≠ "")
  | some (.arr _) => true
  | some (.obj _) => true

/-- The loop building `sanitizedToOriginal`
(`for i < sanitizedDiffs.length: map.set(sanitizedDiffs[i].file, diffs[i].file)`):
indexing `diffs[i]` past the end throws.  Only the `file` field of the
sanitized diffs is read, so the map is built from the file-name list. -/
def buildSanitizedMap : List String → List GitDiff → Except String (List (String × String))
  | [], _ => .ok []
  | s :: ss, d :: ds => (buildSanitizedMap ss ds).map fun m => (s, d.file) :: m
  | _ :: _, [] => .error "TypeError: cannot read properties of undefined"

/-- `Map.get` after a sequence of `Map.set`s in list order: the last binding
for a key wins. -/
def mapGet (m : List (String × String)) (k : String) : Option String :=
  getAssoc m.reverse k

/-- The inner loop over `group.files`: resolve each sanitized name through the
map, drop unknown names, non-string entries, and files already claimed
(first-claim-wins); returns the group's surviving files and the updated
`usedFiles`. -/
def collectValidFiles (m : List (String × String)) :
    List Json → List String → List String × List String
  | [], used => ([], used)
  | item :: rest, used =>
    match item with
    | .str s =>
      (match mapGet m s with
       | some orig =>
         if orig ∈ used then collectValidFiles m rest used
         else
           (orig :: (collectValidFiles m rest (used ++ [orig])).1,
            (collectValidFiles m rest (used ++ [orig])).2)
       | none => collectValidFiles m rest used)
    | _ => collectValidFiles m rest used

/-- `group.description?.trim()`: absent or `null` yields no description, a
string is trimmed, any other value throws. -/
def descriptionOf (descField : Option Json) : Except String (Option String) :=
  match descField with
  | none => .ok none
  | some .null => .ok none
  | some (.str s) => .ok (some (jsTrim s))
  | some _ => .error "TypeError: trim is not a function"

/-- `typeof group.confidence === "number" ? group.confidence : 0.7`. -/
def confOf (confField : Option Json) : Rat :=
  match confField with
  | some (.num q) => q
  | _ => (0.7 : Rat)

/-- The final message of a surviving group: the validator's corrected
message if any, the trimmed message if it is valid, otherwise the
deterministic fallback derived from the group's first file
(`"Updated files"` if that file is not among the diffs). -/
def finalMessageFor (diffs : List GitDiff) (msg : String) (validFiles : List String) : String :=
  let trimmedMessage := jsTrim msg
  let validation := validateCommitMessageFormat trimmedMessage
  match validation.correctedMessage with
  | some c => c
  | none =>
    if validation.isValid then trimmedMessage
    else
      match validFiles.head? with
      | some f0 =>
        (match diffs.find? fun d => d.file = f0 with
         | some d => generateFallbackMessage d
         | none => "Updated files")
      | none => "Updated files"

/-- Processing of one group from the model response (the body of the
`for (const group of parsed.groups)` loop).  Returns the pushed `CommitGroup`
(if any) and the updated `usedFiles`; `Except.error` models an exception
escaping to the outer catch. -/
def processOneGroup (m : List (String × String)) (diffs : List GitDiff) (g : Json)
    (used : List String) : Except String (Option CommitGroup × List String) :=
  match jsGet g "files", jsGet g "message" with
  | .error e, _ => .error e
  | .ok _, .error e => .error e
  | .ok (some (.arr items)), .ok messageField =>
    if jsTruthy messageField = false then .ok (none, used)
    else if (collectValidFiles m items used).1 = [] then
      .ok (none, (collectValidFiles m items used).2)
    else
      match messageField with
      | some (.str msg) =>
        (match jsGet g "description", jsGet g "confidence" with
         | .error e, _ => .error e
         | .ok _, .error e => .error e
         | .ok descField, .ok confField =>
           match descriptionOf descField with
           | .error e => .error e
           | .ok description =>
             .ok (some ⟨(collectValidFiles m items used).1,
                        finalMessageFor diffs msg (collectValidFiles m items used).1,
                        description, confOf confField⟩,
                  (collectValidFiles m items used).2))
      | _ => .error "TypeError: trim is not a function"
  | .ok _, .ok _ => .ok (none, used)

/-- The loop over `parsed.groups`, threading `usedFiles` and the accumulated
groups. -/
def processGroups (m : List (String × String)) (diffs : List GitDiff) :
    List Json → List String → List CommitGroup →
    Except String (List CommitGroup × List String)
  | [], used, acc => .ok (acc, used)
  | g :: rest, used, acc =>
    match processOneGroup m diffs g used with
    | .error e => .error e
    | .ok (some cg, used') => processGroups m diffs rest used' (acc ++ [cg])
    | .ok (none, used') => processGroups m diffs rest used' acc

/-- The body of the `try` block of `parseAggregatedResponse`
(src/services/ai.ts:520-599): JSON extraction, parse, `groups` check, group
processing, and the appending of unclaimed files as singleton fallback groups
with confidence 0.6. -/
def parseAggregatedCore (response : String) (diffs : List GitDiff)
    (sanitizedFiles : List String) : Except String (List CommitGroup) :=
  match jsonExtract response with
  | none => .error "No valid JSON found in AI response"
  | some jstr =>
    match jsonParse jstr with
    | none => .error "SyntaxError: Unexpected token in JSON"
    | some parsed =>
      match jsGet parsed "groups" with
      | .error e => .error e
      | .ok groupsField =>
        match groupsField with
        | some (.arr parsedGroups) =>
          (match buildSanitizedMap sanitizedFiles diffs with
           | .error e => .error e
           | .ok m =>
             match processGroups m diffs parsedGroups [] [] with
             | .error e => .error e
             | .ok (groups, used) =>
               let unusedFiles := diffs.filter fun d => d.file ∉ used
               .ok (groups ++ unusedFiles.map fun d =>
                 { files := [d.file], message := generateFallbackMessage d,
                   description := none, confidence := (0.6 : Rat) }))
        | _ => .error "Invalid groups structure in AI response"

/-- `parseAggregatedResponse`: the catch block wraps ANY exception from the
try block into a new `Failed to parse AI response` error and RE-THROWS it
(src/services/ai.ts:600-603). -/
def parseAggregatedResponse (response : String) (diffs : List GitDiff)
    (sanitizedFiles : List String) : Except String (List CommitGroup) :=
  match parseAggregatedCore response diffs sanitizedFiles with
  | .ok groups => .ok groups
  | .error e => .error ("Failed to parse AI response: " ++ e)

/-! ## `PersistentAICache` (`get` / `set` / `isValidEntry`) -/

def cacheVersion : String := "1.0"

/-- `maxAge`: 7 days in milliseconds.  Times are `Int`s because JS number
subtraction can go negative where `Nat` subtraction would truncate. -/
def cacheMaxAge : Int := 7 * 24 * 60 * 60 * 1000

/-- The `suggestions` field of a stored entry: an array, or — for compressed
disk entries — the base64 string the compressor produced in its place. -/
inductive StoredSuggestions where
  | plain (l : List CommitSuggestion)
  | b64 (payload : String)
deriving DecidableEq, Repr

structure CacheEntry where
  suggestions : StoredSuggestions
  timestamp : Int
  version : String
  compressed : Bool
deriving DecidableEq, Repr

/-- Cache state: the in-process `memoryCache` map, the on-disk tier (one file
per key; modelled structurally as its parsed `CacheEntry` plus the file
mtime — `JSON.parse ∘ JSON.stringify` is the identity on these records), and
the hit/miss counters. -/
structure CacheState where
  memory : List (String × CacheEntry)
  disk : List (String × (Int × CacheEntry))
  hits : Nat
  misses : Nat
deriving Repr

/-- `isValidEntry` (src lines 360-367): version match, age within `maxAge`,
and `Array.isArray(suggestions) && suggestions.length > 0` — which a
compressed (string) payload never passes. -/
def isValidEntry (now : Int) (e : CacheEntry) : Bool :=
  e.version = cacheVersion && e.timestamp > now - cacheMaxAge &&
    (match e.suggestions with
     | .plain l => decide (l.length > 0)
     | .b64 _ => false)

/-- JSON string escaping (for the `JSON.stringify` model). -/
def jsonEscapeChar (c : Char) : List Char :=
  if c = '"' then ['\\', '"']
  else if c = '\\' then ['\\', '\\']
  else if c = '\n' then ['\\', 'n']
  else if c = '\r' then ['\\', 'r']
  else if c = '\t' then ['\\', 't']
  else if c.toNat < 32 then
    '\\' :: 'u' :: '0' :: '0' :: byteHexChars c.toNat
  else [c]

def jsonQuote (s : String) : String :=
  "\"" ++ String.mk (s.data.flatMap jsonEscapeChar) ++ "\""

def padLeftZeros (s : String) (n : Nat) : String :=
  String.mk (List.replicate (n - s.length) '0') ++ s

/-- Decimal rendering of a rational for the `JSON.stringify` model.  Every
number that round-trips through `JSON.parse` of finite decimal input has a
terminating decimal expansion here; the fallback branch cannot arise from
such values and only feeds a size threshold. -/
def ratJsonNum (q : Rat) : String :=
  if q.den = 1 then toString q.num
  else
    match (List.range 30).find? (fun k => (q * (10 : Rat) ^ (k + 1)).den = 1) with
    | some k =>
      let sign := if q < 0 then "-" else ""
      let aq := |q|
      let ip := aq.floor
      let fracDigits := ((aq - (ip : Rat)) * (10 : Rat) ^ (k + 1)).num.toNat
      sign ++ toString ip ++ "." ++ padLeftZeros (toString fracDigits) (k + 1)
    | none => toString q.num ++ "/" ++ toString q.den

/-- `JSON.stringify` of one cached suggestion (`undefined` description is
omitted, as the builtin does). -/
def stringifySuggestion (s : CommitSuggestion) : String :=
  "\x7b\"message\":" ++ jsonQuote s.message ++
    (match s.description with
     | some d => ",\"description\":" ++ jsonQuote d
     | none => "") ++
    ",\"confidence\":" ++ ratJsonNum s.confidence ++ "\x7d"

/-- `JSON.stringify(suggestions)` — its `.length` is the compression
threshold input in `set`. -/
def stringifySuggestions (l : List CommitSuggestion) : String :=
  "[" ++ String.intercalate "," (l.map stringifySuggestion) ++ "]"

def base64Chars : List Char :=
  "ABCDEFGHIJKLMNOPQRSTUVWXYZabcdefghijklmnopqrstuvwxyz0123456789+/".data

def b64Char (n : Nat) : Char := base64Chars.getD n 'A'

/-- Base64 of a byte sequence. -/
def b64Encode : List Nat → List Char
  | b0 :: b1 :: b2 :: rest =>
    b64Char (b0 >>> 2) :: b64Char (((b0 &&& 3) <<< 4) ||| (b1 >>> 4)) ::
      b64Char (((b1 &&& 15) <<< 2) ||| (b2 >>> 6)) :: b64Char (b2 &&& 63) ::
      b64Encode rest
  | [b0, b1] =>
    [b64Char (b0 >>> 2), b64Char (((b0 &&& 3) <<< 4) ||| (b1 >>> 4)),
     b64Char ((b1 &&& 15) <<< 2), '=']
  | [b0] => [b64Char (b0 >>> 2), b64Char ((b0 &&& 3) <<< 4), '=', '=']
  | [] => []

/-- Stand-in for `gzip(payload).toString("base64")`: a content-preserving
encoding.  The exact gzip byte stream is platform-defined and is never
observable through the public cache operations (`isValidEntry` rejects every
compressed payload on read), so only its presence matters. -/
def gzipB64 (s : String) : String := String.mk (b64Encode (utf8Bytes s))

/-- The disk tier of `get` (src lines 279-315): missing file → miss counter
and absent; stale mtime or invalid entry → absent (no counter); valid entry →
promoted into the memory tier (uncompressed) and returned as a hit. -/
def cacheGetDisk (st : CacheState) (now : Int) (key : String) :
    Option (List CommitSuggestion) × CacheState :=
  match getAssoc st.disk key with
  | none => (none, { st with misses := st.misses + 1 })
  | some (mtime, entry) =>
    if now - mtime > cacheMaxAge then (none, st)
    else if !(isValidEntry now entry) then (none, st)
    else
      match entry.suggestions with
      | .plain l =>
        (some l,
         { st with
            memory := setAssoc st.memory key
              { entry with suggestions := .plain l, compressed := false },
            hits := st.hits + 1 })
      | .b64 _ => (none, st)

/-- `PersistentAICache.get` (src lines 270-321): memory tier first, then the
disk tier. -/
def cacheGet (st : CacheState) (now : Int) (key : String) :
    Option (List CommitSuggestion) × CacheState :=
  match getAssoc st.memory key with
  | some e =>
    if isValidEntry now e then
      match e.suggestions with
      | .plain l => (some l, { st with hits := st.hits + 1 })
      | .b64 _ => (none, st)
    else cacheGetDisk st now key
  | none => cacheGetDisk st now key

/-- `PersistentAICache.set` (src lines 323-358): write the plain entry into
the memory tier; write the disk tier compressed when the serialized payload
exceeds 1 KB.  The operation itself never fails (disk errors are swallowed). -/
def cacheSet (st : CacheState) (now : Int) (key : String)
    (suggestions : List CommitSuggestion) : CacheState :=
  let entry : CacheEntry :=
    { suggestions := .plain suggestions, timestamp := now,
      version := cacheVersion, compressed := false }
  let dataSize := (stringifySuggestions suggestions).length
  let diskEntry :=
    if dataSize > 1024 then
      { entry with suggestions := .b64 (gzipB64 (stringifySuggestions suggestions)),
                   compressed := true }
    else entry
  { st with memory := setAssoc st.memory key entry,
            disk := setAssoc st.disk key (now, diskEntry) }

/-! ## `RequestBatcher` -/

/-- Batcher state: the `pendingRequests` map (each pending promise named by a
fresh numeric handle — callers holding the same handle await the very same
promise and so observe the identical settlement), a fresh-handle counter, and
the list of handles whose `requestFn` has been invoked. -/
structure BatcherState where
  pending : List (String × Nat)
  nextId : Nat
  runs : List Nat
deriving DecidableEq, Repr

/-- `RequestBatcher.batch` (src lines 393-423), up to its suspension point:
an existing pending handle is returned as-is; otherwise a fresh promise is
registered under the key and scheduled.  `requestFn` is NOT invoked here — it
runs in the timeout callback. -/
def batcherBatch (st : BatcherState) (key : String) : Nat × BatcherState :=
  match getAssoc st.pending key with
  | some h => (h, st)
  | none =>
    (st.nextId,
     { pending := setAssoc st.pending key st.nextId,
       nextId := st.nextId + 1, runs := st.runs })

/-- The `setTimeout` callback for the registration under `key`
(src lines 406-415): invoke `requestFn` once, then — in the success `resolve`
path and the failure `reject` path alike — delete the key from the pending
table.  `succeeded` selects the path; both leave the same table. -/
def batcherFire (st : BatcherState) (key : String) (_succeeded : Bool) : BatcherState :=
  match getAssoc st.pending key with
  | some h =>
    { pending := eraseAssoc st.pending key, nextId := st.nextId,
      runs := st.runs ++ [h] }
  | none => st

/-- An event of the cooperative scheduler: a `batch` call for a key, or the
firing (and settling) of the pending operation for a key. -/
inductive BatchEvent where
  | call (key : String)
  | fire (key : String) (succeeded : Bool)
deriving DecidableEq, Repr

/-- Run a trace of events; the returned list has, for every `call` event, the
handle that call returned. -/
def runBatcher : BatcherState → List BatchEvent → BatcherState × List (Option Nat)
  | st, [] => (st, [])
  | st, .call k :: rest =>
    let p := batcherBatch st k
    let q := runBatcher p.2 rest
    (q.1, some p.1 :: q.2)
  | st, .fire k ok :: rest =>
    let q := runBatcher (batcherFire st k ok) rest
    (q.1, none :: q.2)

/-! ## Retry / fallback orchestrator

`withRetry` and `withErrorHandling` live in `src/utils/error-handler.ts`,
which is absent from the source snapshot (only its import and call sites
are); they are modelled from the spec (§4.4, §7). -/

inductive ErrorKind where
  | validation
  | transient
deriving DecidableEq, Repr

/-- A `SecureError`: its `ErrorType`, reduced to the retry-relevant
classification, and its message. -/
structure AppError where
  kind : ErrorKind
  msg : String
deriving DecidableEq, Repr

/-- Modelled from the spec: `withRetry(operation, maxAttempts, delayMs)`
executes the operation up to `maxAttempts` times, waits between attempts
(delays are invisible to the outcome), surfaces the last failure, and treats
validation errors as terminal — never retried.  The operation is given by the
outcome of its i-th invocation; the second component is the number of
invocations actually made. -/
def withRetryFrom {α : Type} (op : Nat → Except AppError α) (i : Nat) :
    Nat → Except AppError α × Nat
  | 0 => (.error ⟨.transient, "withRetry: no attempts"⟩, 0)
  | n + 1 =>
    match op i with
    | .ok a => (.ok a, 1)
    | .error e =>
      if e.kind = ErrorKind.validation then (.error e, 1)
      else
        match n with
        | 0 => (.error e, 1)
        | m + 1 =>
          ((withRetryFrom op (i + 1) (m + 1)).1, (withRetryFrom op (i + 1) (m + 1)).2 + 1)

def withRetry {α : Type} (op : Nat → Except AppError α) (maxAttempts : Nat) :
    Except AppError α × Nat :=
  withRetryFrom op 0 maxAttempts

/-! ## `executeAggregatedCommitGeneration` / `generateAggregatedCommits` -/

/-- `DEFAULT_LIMITS.maxApiRequestSize` (src/constants/security.ts). -/
def maxApiRequestSize : Nat := 750000

/-- `DiffContentSchema`: at most 100,000 characters (src/schemas/validation.ts). -/
def maxDiffContentSize : Nat := 100000

/-- `GitDiffSchema.safeParse` success on an already-typed diff reduces to the
`min(1)` bound on the file path. -/
def gitDiffSchemaOk (d : GitDiff) : Bool := d.file.length ≥ 1

def diffContentOk (d : GitDiff) : Bool := decide (d.changes.length ≤ maxDiffContentSize)

/-- `validateAndFilterDiffs` (src/services/ai.ts:90-123).  `shouldSkipFileForAI`
belongs to the sanitizer collaborator (`src/utils/data-sanitization.ts`,
absent from the snapshot; the spec treats it as a black box), so it is a
parameter. -/
def validateAndFilterDiffs (shouldSkip : GitDiff → Bool) (diffs : List GitDiff) :
    List GitDiff :=
  diffs.filter fun d => !(shouldSkip d) && gitDiffSchemaOk d && diffContentOk d

/-- The validation stage of `executeAggregatedCommitGeneration`
(src/services/ai.ts:150-181): empty input, empty filtered input, and an
oversized prompt each raise a `VALIDATION_ERROR`; everything after it (cache
lookup, batching, the upstream model call, response parsing) is abstracted as
the `upstream` outcome for the given model and attempt.  `withErrorHandling`
(also from the absent error-handler module) is modelled from the spec as an
outcome-preserving wrapper.  `promptLen` abstracts the deterministic
`buildAggregatedPrompt` serialized size. -/
def executeAggregatedCommitGeneration {α : Type} (shouldSkip : GitDiff → Bool)
    (promptLen : List GitDiff → Nat)
    (upstream : String → Nat → Except AppError α)
    (diffs : List GitDiff) (modelName : String) (attempt : Nat) :
    Except AppError α :=
  if diffs.isEmpty then
    .error ⟨.validation, "No diffs provided for aggregated commits"⟩
  else
    let validatedDiffs := validateAndFilterDiffs shouldSkip diffs
    if validatedDiffs.isEmpty then
      .error ⟨.validation, "No valid diffs after filtering"⟩
    else if promptLen validatedDiffs > maxApiRequestSize then
      .error ⟨.validation, "Prompt size exceeds limit"⟩
    else upstream modelName attempt

/-- `generateAggregatedCommits` (src/services/ai.ts:248-270): run the retry
tier with the primary model; on ANY failure of that whole tier (the `catch`
is unconditional) make a single fresh `executeAggregatedCommitGeneration`
attempt with the fallback model, whose outcome — success or failure — is the
caller's.  The result is paired with the list of `(model, attempt)`
invocations made.  `AI_RETRY_ATTEMPTS` and `AI_FALLBACK_MODEL` come from
`src/constants/ai.ts`, absent from the snapshot, so both are parameters. -/
def generateAggregatedCommits {α : Type} (exec : String → Nat → Except AppError α)
    (primaryModel fallbackModel : String) (maxAttempts : Nat) :
    Except AppError α × List (String × Nat) :=
  let p := withRetry (exec primaryModel) maxAttempts
  let primaryInvocations := (List.range p.2).map fun i => (primaryModel, i)
  match p.1 with
  | .ok a => (.ok a, primaryInvocations)
  | .error _ => (exec fallbackModel 0, primaryInvocations ++ [(fallbackModel, 0)])

/-- Whether the parse pipeline of `parseAggregatedResponse` fails in its
extraction/shape stages: no JSON span in the raw text, the span does not
parse, or the parsed value lacks a `groups` array. -/
def parseStageFailed (response : String) : Bool :=
  match jsonExtract response with
  | none => true
  | some jstr =>
    match jsonParse jstr with
    | none => true
    | some parsed =>
      match jsGet parsed "groups" with
      | .error _ => true
      | .ok (some (.arr _)) => false
      | .ok _ => true

/-- Concrete expected output of `parseAggregatedResponse` for the coverage
test fixture: the model claims `a.ts`; `b.ts` is appended as a singleton
fallback group with confidence 0.6. -/
def parseAggregatedCoverageWitnessGroups : List CommitGroup :=
  [⟨["a.ts"], "Updated the parsing helpers carefully", none, (0.7 : Rat)⟩,
   ⟨["b.ts"], generateFallbackMessage ⟨"b.ts", 2, 3, "y", false, false, false, none⟩,
    none, (0.6 : Rat)⟩]

/-! # Theorems -/

/-! ## Association list lemmas -/

theorem getAssoc_append {α : Type} (m₁ m₂ : List (String × α)) (k : String) :
    getAssoc (m₁ ++ m₂) k =
      (getAssoc m₁ k).or (getAssoc m₂ k) := by
  induction m₁ with
  | nil => simp [getAssoc]
  | cons p rest ih =>
    by_cases hp : p.1 = k <;> simp [getAssoc, hp, ih]

theorem getAssoc_setAssoc_self {α : Type} (m : List (String × α)) (k : String) (v : α) :
    getAssoc (setAssoc m k v) k = some v := by
  unfold setAssoc
  split
  · rename_i hany
    induction m with
    | nil => simp at hany
    | cons p rest ih =>
      by_cases hp : p.1 = k
      · simp [getAssoc, hp]
      · have : rest.any (fun q => q.1 = k) = true := by
          simpa [List.any_cons, hp] using hany
        simpa [getAssoc, hp] using ih this
  · rw [getAssoc_append]
    rename_i hany
    have hnone : getAssoc m k = none := by
      induction m with
      | nil => rfl
      | cons p rest ih =>
        simp only [List.any_cons, Bool.or_eq_true, decide_eq_true_eq] at hany
        push_neg at hany
        simpa [getAssoc, hany.1] using ih (by simpa using hany.2)
    simp [hnone, getAssoc]

theorem getAssoc_map_overwrite {α : Type} (m : List (String × α)) (k k' : String) (v : α)
    (hne : k ≠ k') :
    getAssoc (m.map fun p => if p.1 = k then (k, v) else p) k' = getAssoc m k' := by
  induction m with
  | nil => rfl
  | cons p rest ih =>
    by_cases hp : p.1 = k
    · have hp' : p.1 ≠ k' := hp ▸ hne
      simp [getAssoc, hp, hp', hne, ih]
    · have hhead : (if p.1 = k then (k, v) else p) = p := if_neg hp
      by_cases hq : p.1 = k'
      · rw [List.map_cons, hhead]
        simp [getAssoc, hq]
      · rw [List.map_cons, hhead]
        simp [getAssoc, hq, ih]

theorem getAssoc_setAssoc_ne {α : Type} (m : List (String × α)) (k k' : String) (v : α)
    (hne : k ≠ k') : getAssoc (setAssoc m k v) k' = getAssoc m k' := by
  unfold setAssoc
  split
  · exact getAssoc_map_overwrite m k k' v hne
  · rw [getAssoc_append]
    cases h : getAssoc m k' with
    | some w => rfl
    | none => simp [getAssoc, hne]

theorem getAssoc_eraseAssoc_self {α : Type} (m : List (String × α)) (k : String) :
    getAssoc (eraseAssoc m k) k = none := by
  induction m with
  | nil => rfl
  | cons p rest ih =>
    by_cases hp : p.1 = k
    · simpa [eraseAssoc, hp] using ih
    · simpa [getAssoc, eraseAssoc, hp] using ih

/-! ## C6: request deduplication -/

theorem batcherBatch_pending {st : BatcherState} {k : String} {h : Nat}
    (hp : getAssoc st.pending k = some h) : batcherBatch st k = (h, st) := by
  simp [batcherBatch, hp]

theorem runBatcher_calls_pending {st : BatcherState} {k : String} {h : Nat}
    (hp : getAssoc st.pending k = some h) (m : Nat) :
    runBatcher st (List.replicate m (.call k)) = (st, List.replicate m (some h)) := by
  induction m with
  | zero => simp [runBatcher]
  | succ n ih => simp [List.replicate_succ, runBatcher, batcherBatch_pending hp, ih]

/--
C6: while a pending operation for a key has not settled, every further
`batch(key, producerFn)` call returns the same pending handle without
invoking `producerFn` (N concurrent calls share one handle, hence one
eventual result or failure, and the producer runs exactly once — at the
timeout firing); on settlement, success or failure alike, the key is removed
from the pending table, and a later call registers a fresh handle.
-/
theorem batcher_dedup_claim (s₀ : BatcherState) (k : String) (n : Nat) (ok : Bool)
    (hfree : getAssoc s₀.pending k = none) :
    (runBatcher s₀ (List.replicate (n + 1) (.call k))).2 =
        List.replicate (n + 1) (some s₀.nextId) ∧
    (runBatcher s₀ (List.replicate (n + 1) (.call k))).1.runs = s₀.runs ∧
    (batcherFire (runBatcher s₀ (List.replicate (n + 1) (.call k))).1 k ok).runs =
        s₀.runs ++ [s₀.nextId] ∧
    getAssoc (batcherFire (runBatcher s₀ (List.replicate (n + 1) (.call k))).1 k ok).pending k
        = none ∧
    (batcherBatch (batcherFire (runBatcher s₀ (List.replicate (n + 1) (.call k))).1 k ok) k).1
        = s₀.nextId + 1 := by
  set s₁ : BatcherState :=
    { pending := setAssoc s₀.pending k s₀.nextId,
      nextId := s₀.nextId + 1, runs := s₀.runs } with hs₁
  have hreg : batcherBatch s₀ k = (s₀.nextId, s₁) := by
    rw [hs₁]; unfold batcherBatch; rw [hfree]
  have hp1 : getAssoc s₁.pending k = some s₀.nextId := by
    rw [hs₁]; exact getAssoc_setAssoc_self _ _ _
  have hrun : runBatcher s₀ (List.replicate (n + 1) (.call k)) =
      (s₁, List.replicate (n + 1) (some s₀.nextId)) := by
    rw [List.replicate_succ]
    show (let p := batcherBatch s₀ k
          let q := runBatcher p.2 (List.replicate n (.call k))
          (q.1, some p.1 :: q.2)) = _
    rw [hreg]
    show ((runBatcher s₁ (List.replicate n (.call k))).1,
          some s₀.nextId :: (runBatcher s₁ (List.replicate n (.call k))).2) = _
    rw [runBatcher_calls_pending hp1 n, List.replicate_succ]
  rw [hrun]
  have hfire : batcherFire s₁ k ok =
      { pending := eraseAssoc s₁.pending k,
        nextId := s₀.nextId + 1, runs := s₀.runs ++ [s₀.nextId] } := by
    simp [batcherFire, hp1, hs₁]
  refine ⟨rfl, by rw [hs₁], ?_, ?_, ?_⟩
  · rw [hfire]
  · rw [hfire]; exact getAssoc_eraseAssoc_self _ _
  · rw [hfire]; simp [batcherBatch, getAssoc_eraseAssoc_self]

/-- Witness for C6: three concurrent calls on a fresh batcher. -/
theorem batcher_dedup_claim_witness :
    (runBatcher ⟨[], 0, []⟩ (List.replicate 3 (.call "agg_k"))).2 =
        List.replicate 3 (some 0) ∧
    (runBatcher ⟨[], 0, []⟩ (List.replicate 3 (.call "agg_k"))).1.runs = [] ∧
    (batcherFire (runBatcher ⟨[], 0, []⟩ (List.replicate 3 (.call "agg_k"))).1 "agg_k" false).runs
        = [] ++ [0] ∧
    getAssoc (batcherFire (runBatcher ⟨[], 0, []⟩
        (List.replicate 3 (.call "agg_k"))).1 "agg_k" false).pending "agg_k" = none ∧
    (batcherBatch (batcherFire (runBatcher ⟨[], 0, []⟩
        (List.replicate 3 (.call "agg_k"))).1 "agg_k" false) "agg_k").1 = 0 + 1 :=
  batcher_dedup_claim ⟨[], 0, []⟩ "agg_k" 2 false (by rfl)

/-! ## C3: retry exhaustion and the fallback model tier -/

theorem withRetryFrom_succ_eq {α : Type} (op : Nat → Except AppError α) (i n : Nat) :
    withRetryFrom op i (n + 1) =
      match op i with
      | .ok a => (.ok a, 1)
      | .error e =>
        if e.kind = ErrorKind.validation then (.error e, 1)
        else
          match n with
          | 0 => (.error e, 1)
          | m + 1 =>
            ((withRetryFrom op (i + 1) (m + 1)).1, (withRetryFrom op (i + 1) (m + 1)).2 + 1) := by
  conv_lhs => rw [withRetryFrom]

theorem withRetryFrom_all_fail {α : Type} (op : Nat → Except AppError α) :
    ∀ n i, 0 < n →
      (∀ j, i ≤ j → j < i + n → ∃ e, op j = .error e ∧ e.kind ≠ ErrorKind.validation) →
      (withRetryFrom op i n).2 = n ∧ ∃ e, (withRetryFrom op i n).1 = .error e := by
  intro n
  induction n with
  | zero => intro i h; omega
  | succ m ih =>
    intro i _ hall
    obtain ⟨e, he, hek⟩ := hall i (le_refl i) (by omega)
    cases m with
    | zero =>
      rw [withRetryFrom_succ_eq]
      simp only [he]
      rw [if_neg hek]
      exact ⟨rfl, e, rfl⟩
    | succ m' =>
      have hrec := ih (i + 1) (by omega) (fun j hj1 hj2 => hall j (by omega) (by omega))
      rw [withRetryFrom_succ_eq]
      simp only [he]
      rw [if_neg hek]
      exact ⟨by rw [hrec.1], hrec.2⟩

/--
C3: if the primary-model operation of the commit-generation entry point fails
on all of its bounded retry attempts (spec-modelled `withRetry`; the failures
are non-validation, so every attempt is actually made), then exactly one
additional attempt is made with the configured fallback model identifier, and
that single attempt's outcome — success or failure — is returned to the
caller unchanged, with no further retries.
-/
theorem fallback_cascade_claim {α : Type} (exec : String → Nat → Except AppError α)
    (primaryModel fallbackModel : String) (maxAttempts : Nat)
    (hpos : 0 < maxAttempts)
    (herr : ∀ i, i < maxAttempts →
      ∃ e, exec primaryModel i = .error e ∧ e.kind ≠ ErrorKind.validation) :
    generateAggregatedCommits exec primaryModel fallbackModel maxAttempts =
      (exec fallbackModel 0,
       (List.range maxAttempts).map (fun i => (primaryModel, i)) ++ [(fallbackModel, 0)]) := by
  have h := withRetryFrom_all_fail (exec primaryModel) maxAttempts 0 hpos
    (fun j hj1 hj2 => herr j (by omega))
  obtain ⟨hcount, e, herre⟩ := h
  unfold generateAggregatedCommits withRetry
  simp only [hcount, herre]

/-- Witness for C3: a producer failing twice on the primary model; the
fallback model's single attempt is returned. -/
theorem fallback_cascade_claim_witness :
    generateAggregatedCommits
        (fun m _ => if m = "gemini-2.5-flash" then
            (.error ⟨.transient, "503"⟩ : Except AppError Nat) else .ok 7)
        "gemini-2.5-flash" "fallback-model" 2 =
      ((fun (m : String) (_ : Nat) => if m = "gemini-2.5-flash" then
            (.error ⟨.transient, "503"⟩ : Except AppError Nat) else .ok 7) "fallback-model" 0,
       (List.range 2).map (fun i => ("gemini-2.5-flash", i)) ++ [("fallback-model", 0)]) :=
  fallback_cascade_claim _ _ _ 2 (by omega)
    (fun i _ => ⟨⟨.transient, "503"⟩, by simp, by simp⟩)

/-! ## C4: validation errors and the fallback tier -/

theorem executeAggregated_validation {α : Type} (shouldSkip : GitDiff → Bool)
    (promptLen : List GitDiff → Nat) (upstream : String → Nat → Except AppError α)
    (diffs : List GitDiff)
    (hval : diffs.isEmpty = true ∨ (validateAndFilterDiffs shouldSkip diffs).isEmpty = true ∨
      promptLen (validateAndFilterDiffs shouldSkip diffs) > maxApiRequestSize) :
    ∃ e : AppError, e.kind = ErrorKind.validation ∧
      ∀ m i, executeAggregatedCommitGeneration shouldSkip promptLen upstream diffs m i
        = .error e := by
  by_cases h1 : diffs.isEmpty = true
  · refine ⟨⟨.validation, "No diffs provided for aggregated commits"⟩, rfl, fun m i => ?_⟩
    simp [executeAggregatedCommitGeneration, h1]
  · by_cases h2 : (validateAndFilterDiffs shouldSkip diffs).isEmpty = true
    · refine ⟨⟨.validation, "No valid diffs after filtering"⟩, rfl, fun m i => ?_⟩
      simp [executeAggregatedCommitGeneration, h1, h2]
    · have h3 : promptLen (validateAndFilterDiffs shouldSkip diffs) > maxApiRequestSize := by
        rcases hval with h | h | h
        · exact absurd h h1
        · exact absurd h h2
        · exact h
      refine ⟨⟨.validation, "Prompt size exceeds limit"⟩, rfl, fun m i => ?_⟩
      simp [executeAggregatedCommitGeneration, h1, h2, h3]

/--
C4 (amended): an input-validation failure (empty diff list, nothing left
after filtering, or an oversized prompt) is not retried — the spec-modelled
`withRetry` makes a single primary attempt — but, because the entry point's
`catch` is unconditional, it DOES trigger the single fallback-model attempt,
which deterministically fails with the same validation error; that error is
then surfaced to the caller.
-/
theorem validation_terminal_amended {α : Type} (shouldSkip : GitDiff → Bool)
    (promptLen : List GitDiff → Nat) (upstream : String → Nat → Except AppError α)
    (diffs : List GitDiff) (primaryModel fallbackModel : String) (maxAttempts : Nat)
    (hpos : 0 < maxAttempts)
    (hval : diffs.isEmpty = true ∨ (validateAndFilterDiffs shouldSkip diffs).isEmpty = true ∨
      promptLen (validateAndFilterDiffs shouldSkip diffs) > maxApiRequestSize) :
    ∃ e : AppError, e.kind = ErrorKind.validation ∧
      generateAggregatedCommits
          (executeAggregatedCommitGeneration shouldSkip promptLen upstream diffs)
          primaryModel fallbackModel maxAttempts =
        (.error e, [(primaryModel, 0), (fallbackModel, 0)]) := by
  obtain ⟨e, hek, hall⟩ := executeAggregated_validation shouldSkip promptLen upstream diffs hval
  refine ⟨e, hek, ?_⟩
  have hret : withRetry (executeAggregatedCommitGeneration shouldSkip promptLen upstream
      diffs primaryModel) maxAttempts = (.error e, 1) := by
    unfold withRetry
    obtain ⟨n, rfl⟩ : ∃ n, maxAttempts = n + 1 := ⟨maxAttempts - 1, by omega⟩
    rw [withRetryFrom_succ_eq]
    simp only [hall]
    rw [if_pos hek]
  unfold generateAggregatedCommits
  simp only [hret, hall]
  rfl

/-- Witness for C4 (amended): the empty diff list. -/
theorem validation_terminal_amended_witness :
    ∃ e : AppError, e.kind = ErrorKind.validation ∧
      generateAggregatedCommits
          (executeAggregatedCommitGeneration (fun _ => false) (fun _ => 0)
            (fun _ _ => Except.ok ([] : List CommitGroup)) [])
          "gemini-2.5-flash" "fallback-model" 3 =
        (.error e, [("gemini-2.5-flash", 0), ("fallback-model", 0)]) :=
  validation_terminal_amended (fun _ => false) (fun _ => 0)
    (fun _ _ => Except.ok ([] : List CommitGroup)) []
    "gemini-2.5-flash" "fallback-model" 3 (by omega) (Or.inl rfl)

/-- Counterexample for C4 as stated: on an empty diff list — a validation
error — the entry point still makes the fallback-model attempt (the
invocation trace contains the fallback model), contradicting "without
triggering the fallback-model attempt". -/
theorem validation_triggers_fallback_counterexample :
    generateAggregatedCommits
        (executeAggregatedCommitGeneration (fun _ => false) (fun _ => 0)
          (fun _ _ => Except.ok ([] : List CommitGroup)) [])
        "gemini-2.5-flash" "fallback-model" 3 =
      (.error ⟨.validation, "No diffs provided for aggregated commits"⟩,
       [("gemini-2.5-flash", 0), ("fallback-model", 0)]) := by
  rfl

/-! ## C10 / C7: the tiered cache -/

theorem cacheSet_memory (st : CacheState) (now : Int) (key : String)
    (suggestions : List CommitSuggestion) :
    getAssoc (cacheSet st now key suggestions).memory key =
      some { suggestions := .plain suggestions, timestamp := now,
             version := cacheVersion, compressed := false } := by
  unfold cacheSet
  exact getAssoc_setAssoc_self _ _ _

theorem cacheSet_disk (st : CacheState) (now : Int) (key : String)
    (suggestions : List CommitSuggestion) :
    getAssoc (cacheSet st now key suggestions).disk key =
      some (now,
        if (stringifySuggestions suggestions).length > 1024 then
          { suggestions := .b64 (gzipB64 (stringifySuggestions suggestions)),
            timestamp := now, version := cacheVersion, compressed := true }
        else
          { suggestions := .plain suggestions, timestamp := now,
            version := cacheVersion, compressed := false }) := by
  unfold cacheSet
  simp only []
  split <;> exact getAssoc_setAssoc_self _ _ _

theorem cacheGet_memory_invalid {st : CacheState} {key : String} {now : Int} {e : CacheEntry}
    (hmem : getAssoc st.memory key = some e) (hv : isValidEntry now e = false) :
    cacheGet st now key = cacheGetDisk st now key := by
  unfold cacheGet
  rw [hmem]
  simp [hv]

theorem cacheGet_memory_valid {st : CacheState} {key : String} {now : Int} {e : CacheEntry}
    {l : List CommitSuggestion}
    (hmem : getAssoc st.memory key = some e) (hv : isValidEntry now e = true)
    (hplain : e.suggestions = .plain l) :
    cacheGet st now key = (some l, { st with hits := st.hits + 1 }) := by
  unfold cacheGet
  rw [hmem]
  simp [hv, hplain]

theorem cacheGetDisk_invalid {st : CacheState} {key : String} {now mtime : Int}
    {entry : CacheEntry}
    (hdisk : getAssoc st.disk key = some (mtime, entry))
    (hv : isValidEntry now entry = false) :
    (cacheGetDisk st now key).1 = none := by
  unfold cacheGetDisk
  rw [hdisk]
  simp only []
  split
  · rfl
  · rw [hv]
    simp

theorem cacheGet_cacheSet_nil (st : CacheState) (key : String) (t t' : Int) :
    (cacheGet (cacheSet st t key []) t' key).1 = none := by
  have hmem := cacheSet_memory st t key []
  have hdisk := cacheSet_disk st t key []
  have hsize : ¬((stringifySuggestions ([] : List CommitSuggestion)).length > 1024) := by
    decide
  rw [if_neg hsize] at hdisk
  have hinvalid : ∀ t'' : Int, isValidEntry t''
      { suggestions := .plain ([] : List CommitSuggestion), timestamp := t,
        version := cacheVersion, compressed := false } = false := by
    intro t''
    simp [isValidEntry]
  rw [cacheGet_memory_invalid hmem (hinvalid t')]
  exact cacheGetDisk_invalid hdisk (hinvalid t')

/--
C10: storing an empty suggestion list succeeds (`cacheSet` is total), but a
subsequent `get` of that key — at ANY later time — returns absent:
`isValidEntry` requires a non-empty suggestion array, so the empty entry is
rejected in the memory tier and again in the disk tier, and an empty result
can never be served from either tier.
-/
theorem empty_suggestions_never_served (st : CacheState) (key : String) (t t' : Int) :
    (cacheGet (cacheSet st t key []) t' key).1 = none :=
  cacheGet_cacheSet_nil st key t t'

/-- Counterexample for C7 as stated ("for every key and suggestion list"):
with the EMPTY suggestion list, `set` followed immediately by `get` returns
absent, not the stored (empty) list. -/
theorem cache_roundtrip_empty_counterexample :
    (cacheGet (cacheSet ⟨[], [], 0, 0⟩ 0 "agg_k" []) 0 "agg_k").1 = none ∧
    (cacheGet (cacheSet ⟨[], [], 0, 0⟩ 0 "agg_k" []) 0 "agg_k").1
      ≠ some ([] : List CommitSuggestion) := by
  refine ⟨cacheGet_cacheSet_nil _ _ _ _, ?_⟩
  rw [cacheGet_cacheSet_nil _ _ _ _]
  simp

/--
C7 (amended): for every key and NON-EMPTY suggestion list, `set(key, s)`
followed by `get(key)` before the 7-day retention window expires returns `s`
(served from the fast tier); and whenever every entry stored under the key —
in the memory tier and on disk — bears a format version different from the
running build's, `get(key)` returns absent.
-/
theorem cache_roundtrip_amended :
    (∀ (st : CacheState) (key : String) (suggestions : List CommitSuggestion) (t t' : Int),
      suggestions ≠ [] → t > t' - cacheMaxAge →
      (cacheGet (cacheSet st t key suggestions) t' key).1 = some suggestions) ∧
    (∀ (st : CacheState) (key : String) (now : Int),
      (∀ e, getAssoc st.memory key = some e → e.version ≠ cacheVersion) →
      (∀ me, getAssoc st.disk key = some me → me.2.version ≠ cacheVersion) →
      (cacheGet st now key).1 = none) := by
  constructor
  · intro st key suggestions t t' hne ht
    have hmem := cacheSet_memory st t key suggestions
    have hvalid : isValidEntry t'
        { suggestions := .plain suggestions, timestamp := t,
          version := cacheVersion, compressed := false } = true := by
      have hlen : suggestions.length > 0 := by
        cases suggestions with
        | nil => exact absurd rfl hne
        | cons a l => simp
      simp [isValidEntry, ht, hlen]
    rw [cacheGet_memory_valid hmem hvalid rfl]
  · intro st key now hm hd
    have hdisk : (cacheGetDisk st now key).1 = none := by
      cases h : getAssoc st.disk key with
      | none =>
        unfold cacheGetDisk
        rw [h]
      | some me =>
        have hv : isValidEntry now me.2 = false := by
          have := hd me h
          simp [isValidEntry, this]
        exact cacheGetDisk_invalid (by rw [h]) hv
    cases h : getAssoc st.memory key with
    | none =>
      unfold cacheGet
      rw [h]
      exact hdisk
    | some e =>
      have hv : isValidEntry now e = false := by
        have := hm e h
        simp [isValidEntry, this]
      rw [cacheGet_memory_invalid h hv]
      exact hdisk

/-- Witness for C7 (amended): a one-suggestion round trip within the window,
and a state whose only stored entry for the key carries version "0.9". -/
theorem cache_roundtrip_amended_witness :
    (cacheGet (cacheSet ⟨[], [], 0, 0⟩ 5 "agg_k"
        [{ message := "Updated helper utilities", description := none,
           confidence := (0.7 : Rat) }]) 6 "agg_k").1 =
      some [{ message := "Updated helper utilities", description := none,
              confidence := (0.7 : Rat) }] ∧
    (cacheGet
        ⟨[], [("agg_k", ((0 : Int),
          CacheEntry.mk (.plain [CommitSuggestion.mk "m" none (0.7 : Rat)]) 0 "0.9" false))],
         0, 0⟩ 1 "agg_k").1 = none := by
  constructor
  · exact cache_roundtrip_amended.1 _ _ _ 5 6 (by simp) (by decide)
  · refine cache_roundtrip_amended.2 _ _ 1 (fun e he => by cases he) (fun me hme => ?_)
    have hm2 : me = ((0 : Int),
        CacheEntry.mk (.plain [CommitSuggestion.mk "m" none (0.7 : Rat)]) 0 "0.9" false) := by
      simpa [getAssoc] using hme.symm
    rw [hm2]
    decide

/-! ## C8: commit message format policy -/

/--
C8: `validateCommitMessageFormat` rejects any message whose trimmed text
starts (case-insensitively) with a known short prefix token; a message
matching the scoped conventional-commit pattern (and not a short prefix
token) has the leading `word(scope):` fragment stripped and the remainder
capitalized, the corrected text being accepted exactly when it retains more
than 10 characters and rejected otherwise; in particular
"feat(auth): Added OAuth2 support for login" is corrected to
"Added OAuth2 support for login", and a group message "fix:" is rejected and
replaced, inside `parseAggregatedResponse`, by the deterministic fallback
message for that group's file.
-/
theorem message_format_policy_claim :
    (∀ m : String,
      (avoidPrefixes.any fun p => jsStartsWith (jsToLower (jsTrim m)) p) = true →
      validateCommitMessageFormat m = ⟨false, none⟩) ∧
    (∀ m : String, m ≠ "" →
      (avoidPrefixes.any fun p => jsStartsWith (jsToLower (jsTrim m)) p) = false →
      hasConventionalPattern (jsTrim m) = true →
      validateCommitMessageFormat m =
        (if stripConventional (jsTrim m) ≠ "" ∧ (stripConventional (jsTrim m)).length > 10
         then ⟨true, some (capitalizeFirst (stripConventional (jsTrim m)))⟩
         else ⟨false, none⟩)) ∧
    validateCommitMessageFormat "feat(auth): Added OAuth2 support for login"
      = ⟨true, some "Added OAuth2 support for login"⟩ ∧
    validateCommitMessageFormat "fix:" = ⟨false, none⟩ ∧
    parseAggregatedResponse
        "\x7b\"groups\":[\x7b\"files\":[\"auth.ts\"],\"message\":\"fix:\"\x7d]\x7d"
        [⟨"auth.ts", 5, 1, "x", false, false, false, none⟩] ["auth.ts"]
      = .ok [⟨["auth.ts"],
              generateFallbackMessage ⟨"auth.ts", 5, 1, "x", false, false, false, none⟩,
              none, (0.7 : Rat)⟩] := by
  refine ⟨?_, ?_, by decide, by decide, by rfl⟩
  · intro m h
    by_cases hm : m = ""
    · subst hm
      exact absurd h (by decide)
    · unfold validateCommitMessageFormat
      rw [if_neg hm]
      simp [h]
  · intro m hm h1 h2
    unfold validateCommitMessageFormat
    rw [if_neg hm]
    simp [h1, h2]

/-- Witness for C8: a short-prefix message and a scoped message at concrete
inputs. -/
theorem message_format_policy_claim_witness :
    validateCommitMessageFormat "chore: tidy" = ⟨false, none⟩ ∧
    validateCommitMessageFormat "refactor(core): Restructured parser pipeline" =
      (if stripConventional (jsTrim "refactor(core): Restructured parser pipeline") ≠ "" ∧
          (stripConventional (jsTrim "refactor(core): Restructured parser pipeline")).length > 10
       then ⟨true, some (capitalizeFirst
              (stripConventional (jsTrim "refactor(core): Restructured parser pipeline")))⟩
       else ⟨false, none⟩) :=
  ⟨message_format_policy_claim.1 "chore: tidy" (by decide),
   message_format_policy_claim.2.1 "refactor(core): Restructured parser pipeline"
     (by decide) (by decide) (by decide)⟩

/-! ## C9: the JSON extraction step -/

/-- Counterexample for C9 as stated: for a response holding one JSON object
followed by another, the extraction yields the greedy span from the first
opening brace to the LAST closing brace — not the first balanced object — and
that span is not valid JSON. -/
theorem json_extract_greedy_counterexample :
    jsonExtract "x \x7b\"a\":1\x7d y \x7b\"b\":2\x7d" = some "\x7b\"a\":1\x7d y \x7b\"b\":2\x7d" ∧
    jsonExtract "x \x7b\"a\":1\x7d y \x7b\"b\":2\x7d" ≠ some "\x7b\"a\":1\x7d" ∧
    jsonParse "\x7b\"a\":1\x7d y \x7b\"b\":2\x7d" = none := by
  refine ⟨by rfl, by decide, by rfl⟩

theorem dropWhile_append_all {α : Type} (p : α → Bool) (a rest : List α)
    (ha : ∀ z ∈ a, p z = true) :
    (a ++ rest).dropWhile p = rest.dropWhile p := by
  induction a with
  | nil => rfl
  | cons x xs ih =>
    have hx := ha x (by simp)
    simp only [List.cons_append, List.dropWhile_cons, hx, if_true]
    exact ih fun z hz => ha z (by simp [hz])

/--
C9 (amended): the extraction step takes the greedy span from the FIRST
opening brace to the LAST closing brace of the raw text (the leftmost-longest
match of the pattern brace–anything–brace), not the first balanced JSON
object; and the absence of any such span is a parse failure of
`parseAggregatedResponse`.
-/
theorem json_extract_amended :
    (∀ a b c : List Char, '{' ∉ a → '}' ∉ c →
      jsonExtractList (a ++ '{' :: (b ++ '}' :: c)) = some ('{' :: (b ++ ['}']))) ∧
    (∀ (response : String) (diffs : List GitDiff) (sanitizedFiles : List String),
      jsonExtract response = none →
      parseAggregatedResponse response diffs sanitizedFiles
        = .error "Failed to parse AI response: No valid JSON found in AI response") := by
  constructor
  · intro a b c ha hc
    unfold jsonExtractList
    have h1 : (a ++ '{' :: (b ++ '}' :: c)).dropWhile (fun ch => !(ch = '{'))
        = '{' :: (b ++ '}' :: c) := by
      rw [dropWhile_append_all]
      · simp [List.dropWhile_cons]
      · intro z hz
        have hzz : z ≠ '{' := fun h => ha (h ▸ hz)
        simp [hzz]
    have h2 : ('{' :: (b ++ '}' :: c)).reverse
        = c.reverse ++ '}' :: (b.reverse ++ ['{']) := by
      simp [List.reverse_cons, List.reverse_append, List.append_assoc]
    have h3 : (c.reverse ++ '}' :: (b.reverse ++ ['{'])).dropWhile (fun ch => !(ch = '}'))
        = '}' :: (b.reverse ++ ['{']) := by
      rw [dropWhile_append_all]
      · simp [List.dropWhile_cons]
      · intro z hz
        have hzz : z ≠ '}' := fun h => hc (h ▸ (List.mem_reverse.mp hz))
        simp [hzz]
    simp only [h1, h2, h3]
    simp [List.reverse_cons, List.reverse_append]
  · intro response diffs sanitizedFiles h
    unfold parseAggregatedResponse parseAggregatedCore
    rw [h]
    rfl

/-- Witness for C9 (amended): a concrete decomposition and a concrete
JSON-free response. -/
theorem json_extract_amended_witness :
    jsonExtractList (['x', ' '] ++ '{' :: (['"', 'a', '"', ':', '1'] ++ '}' :: [' ', '!'])) =
      some ('{' :: (['"', 'a', '"', ':', '1'] ++ ['}'])) ∧
    parseAggregatedResponse "plain prose reply" [] []
      = .error "Failed to parse AI response: No valid JSON found in AI response" :=
  ⟨json_extract_amended.1 ['x', ' '] ['"', 'a', '"', ':', '1'] [' ', '!']
      (by decide) (by decide),
   json_extract_amended.2 "plain prose reply" [] [] (by rfl)⟩

/-! ## C2: parse failures are re-thrown, not recovered -/

/-- Counterexample for C2 as stated: for a three-file input and a raw
response with no JSON object, the parser returns an ERROR — it does not
return singleton fallback groups, and the failure IS surfaced to the caller. -/
theorem parse_failure_rethrows_counterexample :
    parseAggregatedResponse "The model replied in prose without any structured output."
        [⟨"a.ts", 1, 0, "x", false, false, false, none⟩,
         ⟨"b.ts", 2, 3, "y", false, false, false, none⟩,
         ⟨"c.ts", 0, 5, "z", false, false, false, none⟩]
        ["a.ts", "b.ts", "c.ts"]
      = .error "Failed to parse AI response: No valid JSON found in AI response" ∧
    parseAggregatedResponse "The model replied in prose without any structured output."
        [⟨"a.ts", 1, 0, "x", false, false, false, none⟩,
         ⟨"b.ts", 2, 3, "y", false, false, false, none⟩,
         ⟨"c.ts", 0, 5, "z", false, false, false, none⟩]
        ["a.ts", "b.ts", "c.ts"]
      ≠ .ok (List.map
          (fun d => { files := [d.file], message := generateFallbackMessage d,
                      description := none, confidence := (0.6 : Rat) })
          [⟨"a.ts", 1, 0, "x", false, false, false, none⟩,
           ⟨"b.ts", 2, 3, "y", false, false, false, none⟩,
           ⟨"c.ts", 0, 5, "z", false, false, false, none⟩]) := by
  have h1 : parseAggregatedResponse
      "The model replied in prose without any structured output."
      [⟨"a.ts", 1, 0, "x", false, false, false, none⟩,
       ⟨"b.ts", 2, 3, "y", false, false, false, none⟩,
       ⟨"c.ts", 0, 5, "z", false, false, false, none⟩]
      ["a.ts", "b.ts", "c.ts"]
      = .error "Failed to parse AI response: No valid JSON found in AI response" := by rfl
  exact ⟨h1, fun h => by rw [h1] at h; exact Except.noConfusion h⟩

/--
C2 (amended): on every parse failure — no brace span in the raw text, a span
rejected by `JSON.parse`, or a parsed value without a `groups` array — the
parser re-throws: `parseAggregatedResponse` returns an error (prefixed
"Failed to parse AI response"), surfacing the failure to its caller (the
retry layer); no per-file fallback groups are emitted at this stage.
-/
theorem parse_failure_rethrows_amended (response : String) (diffs : List GitDiff)
    (sanitizedFiles : List String) (hfail : parseStageFailed response = true) :
    ∃ e, parseAggregatedResponse response diffs sanitizedFiles
      = .error ("Failed to parse AI response: " ++ e) := by
  unfold parseStageFailed at hfail
  unfold parseAggregatedResponse parseAggregatedCore
  cases hx : jsonExtract response with
  | none =>
    exact ⟨"No valid JSON found in AI response", rfl⟩
  | some jstr =>
    simp only []
    cases hp : jsonParse jstr with
    | none =>
      exact ⟨"SyntaxError: Unexpected token in JSON", rfl⟩
    | some parsed =>
      simp only []
      cases hg : jsGet parsed "groups" with
      | error e =>
        exact ⟨e, rfl⟩
      | ok groupsField =>
        simp only []
        cases groupsField with
        | none => exact ⟨"Invalid groups structure in AI response", rfl⟩
        | some j =>
          cases j with
          | arr items => simp [hx, hp, hg] at hfail
          | null => exact ⟨"Invalid groups structure in AI response", rfl⟩
          | bool b => exact ⟨"Invalid groups structure in AI response", rfl⟩
          | num q => exact ⟨"Invalid groups structure in AI response", rfl⟩
          | str s => exact ⟨"Invalid groups structure in AI response", rfl⟩
          | obj fs => exact ⟨"Invalid groups structure in AI response", rfl⟩

/-- Witness for C2 (amended): a response whose JSON object lacks a `groups`
array. -/
theorem parse_failure_rethrows_amended_witness :
    ∃ e, parseAggregatedResponse "\x7b\"answer\":42\x7d"
        [⟨"a.ts", 1, 0, "x", false, false, false, none⟩] ["a.ts"]
      = .error ("Failed to parse AI response: " ++ e) :=
  parse_failure_rethrows_amended "\x7b\"answer\":42\x7d"
    [⟨"a.ts", 1, 0, "x", false, false, false, none⟩] ["a.ts"] (by rfl)

/-! ## C5: cache key stability -/

theorem length_eq_eight {l : List Nat} (h : l.length = 8) :
    ∃ a b c d e f g h8, l = [a, b, c, d, e, f, g, h8] := by
  rcases l with _ | ⟨a, l⟩
  · simp at h
  rcases l with _ | ⟨b, l⟩
  · simp at h
  rcases l with _ | ⟨c, l⟩
  · simp at h
  rcases l with _ | ⟨d, l⟩
  · simp at h
  rcases l with _ | ⟨e, l⟩
  · simp at h
  rcases l with _ | ⟨f, l⟩
  · simp at h
  rcases l with _ | ⟨g, l⟩
  · simp at h
  rcases l with _ | ⟨h8, l⟩
  · simp at h
  rcases l with _ | ⟨x, l⟩
  · exact ⟨a, b, c, d, e, f, g, h8, rfl⟩
  · simp [List.length_cons] at h

theorem compressStep_length (st : List Nat) (kw : Nat × Nat) (h : st.length = 8) :
    (compressStep st kw).length = 8 := by
  obtain ⟨a, b, c, d, e, f, g, h8, rfl⟩ := length_eq_eight h
  rfl

theorem foldl_compressStep_length (l : List (Nat × Nat)) (st : List Nat) (h : st.length = 8) :
    (l.foldl compressStep st).length = 8 := by
  induction l generalizing st with
  | nil => exact h
  | cons x xs ih => exact ih _ (compressStep_length st x h)

theorem compressBlock_length (H block : List Nat) (h : H.length = 8) :
    (compressBlock H block).length = 8 := by
  unfold compressBlock
  have hst := foldl_compressStep_length (shaK.zip (extendSchedule (toWords block) 48)) H h
  rw [List.length_map, List.length_zip, h, hst]
  rfl

theorem foldl_compressBlock_length (blocks : List (List Nat)) (H : List Nat)
    (h : H.length = 8) : (blocks.foldl compressBlock H).length = 8 := by
  induction blocks generalizing H with
  | nil => exact h
  | cons b bs ih => exact ih _ (compressBlock_length H b h)

theorem sha256bytes_length (msg : List Nat) : (sha256bytes msg).length = 32 := by
  unfold sha256bytes
  have h4 : ∀ H : List Nat,
      (H.flatMap fun w => [(w >>> 24) % 256, (w >>> 16) % 256, (w >>> 8) % 256, w % 256]).length
        = 4 * H.length := by
    intro H
    induction H with
    | nil => rfl
    | cons w ws ih =>
      simp only [List.flatMap_cons, List.length_append, ih, List.length_cons,
        List.length_nil]
      omega
  rw [h4, foldl_compressBlock_length _ _ (by rfl)]

theorem sha256hexChars_length (msg : List Nat) : (sha256hexChars msg).length = 64 := by
  unfold sha256hexChars
  have h2 : ∀ bs : List Nat, (bs.flatMap byteHexChars).length = 2 * bs.length := by
    intro bs
    induction bs with
    | nil => rfl
    | cons b t ih =>
      simp only [List.flatMap_cons, List.length_append, ih, byteHexChars,
        List.length_cons, List.length_nil]
      omega
  rw [h2, sha256bytes_length]

theorem sha256bytes_lt (msg : List Nat) : ∀ b ∈ sha256bytes msg, b < 256 := by
  intro b hb
  unfold sha256bytes at hb
  rw [List.mem_flatMap] at hb
  obtain ⟨w, _, hw⟩ := hb
  simp only [List.mem_cons, List.not_mem_nil, or_false] at hw
  rcases hw with rfl | rfl | rfl | rfl <;> exact Nat.mod_lt _ (by omega)

theorem hexDigitChar_mem {n : Nat} (h : n < 16) :
    hexDigitChar n ∈ "0123456789abcdef".data := by
  interval_cases n <;> decide

theorem byteHexChars_mem {b : Nat} (hb : b < 256) :
    ∀ c ∈ byteHexChars b, c ∈ "0123456789abcdef".data := by
  intro c hc
  unfold byteHexChars at hc
  simp only [List.mem_cons, List.not_mem_nil, or_false] at hc
  rcases hc with rfl | rfl
  · exact hexDigitChar_mem (by omega)
  · exact hexDigitChar_mem (Nat.mod_lt _ (by omega))

theorem insertionSort_congr_perm {l₁ l₂ : List String} (h : l₁.Perm l₂) :
    l₁.insertionSort (· ≤ ·) = l₂.insertionSort (· ≤ ·) :=
  List.eq_of_perm_of_sorted
    ((List.perm_insertionSort _ l₁).trans (h.trans (List.perm_insertionSort _ l₂).symm))
    (List.sorted_insertionSort _ l₁) (List.sorted_insertionSort _ l₂)

theorem generateKey_perm {d₁ d₂ : List GitDiff} (h : d₁.Perm d₂) :
    generateKey d₁ = generateKey d₂ := by
  unfold generateKey
  rw [insertionSort_congr_perm (h.map keyComponent)]

theorem generateKey_ws {d₁ d₂ : List GitDiff}
    (h : List.Forall₂ (fun a b => a.file = b.file ∧ a.additions = b.additions ∧
      a.deletions = b.deletions ∧
      jsTrim (wsCollapse a.changes) = jsTrim (wsCollapse b.changes)) d₁ d₂) :
    generateKey d₁ = generateKey d₂ := by
  have hmap : d₁.map keyComponent = d₂.map keyComponent := by
    induction h with
    | nil => rfl
    | @cons a b l₁ l₂ hab htail ih =>
      obtain ⟨h1, h2, h3, h4⟩ := hab
      simp only [List.map_cons, ih]
      have hk : keyComponent a = keyComponent b := by
        unfold keyComponent hashContent normalizedChanges
        rw [h1, h2, h3, h4]
      exact congrArg₂ List.cons hk rfl
  unfold generateKey
  rw [hmap]

theorem generateKey_hex (diffs : List GitDiff) :
    (generateKey diffs).length = 16 ∧
      ∀ c ∈ (generateKey diffs).data, c ∈ "0123456789abcdef".data := by
  unfold generateKey
  constructor
  · show (List.take 16 _).length = 16
    rw [List.length_take, sha256hexChars_length]
    rfl
  · intro c hc
    have hc' : c ∈ sha256hexChars
        (utf8Bytes (String.intercalate "|"
          ((diffs.map keyComponent).insertionSort (· ≤ ·)))) :=
      List.mem_of_mem_take hc
    unfold sha256hexChars at hc'
    rw [List.mem_flatMap] at hc'
    obtain ⟨b, hb, hcb⟩ := hc'
    exact byteHexChars_mem (sha256bytes_lt _ b hb) c hcb

/-! ## C1: total coverage of the input file set -/

theorem collectValidFiles_used (m : List (String × String)) :
    ∀ (items : List Json) (used : List String),
      (collectValidFiles m items used).2 = used ++ (collectValidFiles m items used).1 := by
  intro items
  induction items with
  | nil => intro used; simp [collectValidFiles]
  | cons item rest ih =>
    intro used
    cases item with
    | str s =>
      cases hl : mapGet m s with
      | some orig =>
        by_cases hmem : orig ∈ used
        · simp only [collectValidFiles, hl, if_pos hmem]
          exact ih used
        · simp only [collectValidFiles, hl, if_neg hmem]
          rw [ih (used ++ [orig])]
          simp [List.append_assoc]
      | none =>
        simp only [collectValidFiles, hl]
        exact ih used
    | null => simpa [collectValidFiles] using ih used
    | bool b => simpa [collectValidFiles] using ih used
    | num q => simpa [collectValidFiles] using ih used
    | arr xs => simpa [collectValidFiles] using ih used
    | obj fs => simpa [collectValidFiles] using ih used

theorem collectValidFiles_mem (m : List (String × String)) :
    ∀ (items : List Json) (used : List String),
      ∀ f ∈ (collectValidFiles m items used).1, ∃ s, mapGet m s = some f := by
  intro items
  induction items with
  | nil => intro used f hf; simp [collectValidFiles] at hf
  | cons item rest ih =>
    intro used f hf
    cases item with
    | str s =>
      cases hl : mapGet m s with
      | some orig =>
        by_cases hmem : orig ∈ used
        · simp only [collectValidFiles, hl, if_pos hmem] at hf
          exact ih used f hf
        · simp only [collectValidFiles, hl, if_neg hmem] at hf
          rcases List.mem_cons.mp hf with rfl | hf'
          · exact ⟨s, hl⟩
          · exact ih _ f hf'
      | none =>
        simp only [collectValidFiles, hl] at hf
        exact ih used f hf
    | null => simp only [collectValidFiles] at hf; exact ih used f hf
    | bool b => simp only [collectValidFiles] at hf; exact ih used f hf
    | num q => simp only [collectValidFiles] at hf; exact ih used f hf
    | arr xs => simp only [collectValidFiles] at hf; exact ih used f hf
    | obj fs => simp only [collectValidFiles] at hf; exact ih used f hf

theorem collectValidFiles_nodup (m : List (String × String)) :
    ∀ (items : List Json) (used : List String), used.Nodup →
      (collectValidFiles m items used).2.Nodup := by
  intro items
  induction items with
  | nil => intro used h; simpa [collectValidFiles] using h
  | cons item rest ih =>
    intro used h
    cases item with
    | str s =>
      cases hl : mapGet m s with
      | some orig =>
        by_cases hmem : orig ∈ used
        · simp only [collectValidFiles, hl, if_pos hmem]
          exact ih used h
        · simp only [collectValidFiles, hl, if_neg hmem]
          apply ih
          rw [List.nodup_append]
          refine ⟨h, List.nodup_singleton _, ?_⟩
          intro a ha hb
          rw [List.mem_singleton] at hb
          subst hb
          exact hmem ha
      | none =>
        simp only [collectValidFiles, hl]
        exact ih used h
    | null => simp only [collectValidFiles]; exact ih used h
    | bool b => simp only [collectValidFiles]; exact ih used h
    | num q => simp only [collectValidFiles]; exact ih used h
    | arr xs => simp only [collectValidFiles]; exact ih used h
    | obj fs => simp only [collectValidFiles]; exact ih used h

theorem processOneGroup_spec {m : List (String × String)} {diffs : List GitDiff}
    {g : Json} {used : List String} {og : Option CommitGroup} {used' : List String}
    (h : processOneGroup m diffs g used = .ok (og, used')) :
    (og = none → used' = used) ∧
    (∀ cg, og = some cg →
      used' = used ++ cg.files ∧ cg.files ≠ [] ∧
      ∀ f ∈ cg.files, ∃ s, mapGet m s = some f) ∧
    (used.Nodup → used'.Nodup) := by
  unfold processOneGroup at h
  cases h1 : jsGet g "files" with
  | error e => rw [h1] at h; simp at h
  | ok filesField =>
    cases h2 : jsGet g "message" with
    | error e => rw [h1, h2] at h; simp at h
    | ok messageField =>
      rw [h1, h2] at h
      cases filesField with
      | none =>
        simp only [Except.ok.injEq, Prod.mk.injEq] at h
        obtain ⟨ho, hu⟩ := h
        subst ho; subst hu
        exact ⟨fun _ => rfl, fun cg hcg => Option.noConfusion hcg, fun hh => hh⟩
      | some j =>
        cases j with
        | arr items =>
          simp only [] at h
          by_cases hm : jsTruthy messageField = false
          · rw [if_pos hm] at h
            simp only [Except.ok.injEq, Prod.mk.injEq] at h
            obtain ⟨ho, hu⟩ := h
            subst ho; subst hu
            exact ⟨fun _ => rfl, fun cg hcg => Option.noConfusion hcg, fun hh => hh⟩
          · rw [if_neg hm] at h
            by_cases hv : (collectValidFiles m items used).1 = []
            · rw [if_pos hv] at h
              simp only [Except.ok.injEq, Prod.mk.injEq] at h
              obtain ⟨ho, hu⟩ := h
              subst ho
              refine ⟨fun _ => ?_, fun cg hcg => Option.noConfusion hcg, fun hh => ?_⟩
              · rw [← hu, collectValidFiles_used, hv, List.append_nil]
              · rw [← hu]
                exact collectValidFiles_nodup m items used hh
            · rw [if_neg hv] at h
              cases messageField with
              | none => simp [jsTruthy] at hm
              | some mj =>
                cases mj with
                | str msg =>
                  cases h3 : jsGet g "description" with
                  | error e => rw [h3] at h; simp at h
                  | ok descField =>
                    cases h4 : jsGet g "confidence" with
                    | error e => rw [h3, h4] at h; simp at h
                    | ok confField =>
                      rw [h3, h4] at h
                      simp only [] at h
                      cases h5 : descriptionOf descField with
                      | error e => rw [h5] at h; simp at h
                      | ok description =>
                        rw [h5] at h
                        simp only [Except.ok.injEq, Prod.mk.injEq] at h
                        obtain ⟨ho, hu⟩ := h
                        subst ho
                        refine ⟨fun hc => Option.noConfusion hc, fun cg hcg => ?_, fun hh => ?_⟩
                        · injection hcg with hcg'
                          subst hcg'
                          refine ⟨?_, hv, ?_⟩
                          · rw [← hu]
                            exact collectValidFiles_used m items used
                          · intro f hf
                            exact collectValidFiles_mem m items used f hf
                        · rw [← hu]
                          exact collectValidFiles_nodup m items used hh
                | null => simp [jsTruthy] at hm
                | bool b =>
                  cases b with
                  | false => simp [jsTruthy] at hm
                  | true => simp at h
                | num q => simp at h
                | arr xs => simp at h
                | obj fs => simp at h
        | null =>
          simp only [Except.ok.injEq, Prod.mk.injEq] at h
          obtain ⟨ho, hu⟩ := h
          subst ho; subst hu
          exact ⟨fun _ => rfl, fun cg hcg => Option.noConfusion hcg, fun hh => hh⟩
        | bool b =>
          simp only [Except.ok.injEq, Prod.mk.injEq] at h
          obtain ⟨ho, hu⟩ := h
          subst ho; subst hu
          exact ⟨fun _ => rfl, fun cg hcg => Option.noConfusion hcg, fun hh => hh⟩
        | num q =>
          simp only [Except.ok.injEq, Prod.mk.injEq] at h
          obtain ⟨ho, hu⟩ := h
          subst ho; subst hu
          exact ⟨fun _ => rfl, fun cg hcg => Option.noConfusion hcg, fun hh => hh⟩
        | str s =>
          simp only [Except.ok.injEq, Prod.mk.injEq] at h
          obtain ⟨ho, hu⟩ := h
          subst ho; subst hu
          exact ⟨fun _ => rfl, fun cg hcg => Option.noConfusion hcg, fun hh => hh⟩
        | obj fs =>
          simp only [Except.ok.injEq, Prod.mk.injEq] at h
          obtain ⟨ho, hu⟩ := h
          subst ho; subst hu
          exact ⟨fun _ => rfl, fun cg hcg => Option.noConfusion hcg, fun hh => hh⟩

theorem processGroups_spec (m : List (String × String)) (diffs : List GitDiff) :
    ∀ (gs : List Json) (used : List String) (acc : List CommitGroup)
      (groups : List CommitGroup) (usedF : List String),
      processGroups m diffs gs used acc = .ok (groups, usedF) →
      ∃ ng : List CommitGroup,
        groups = acc ++ ng ∧
        usedF = used ++ ng.flatMap CommitGroup.files ∧
        (∀ f ∈ ng.flatMap CommitGroup.files, ∃ s, mapGet m s = some f) ∧
        (used.Nodup → usedF.Nodup) := by
  intro gs
  induction gs with
  | nil =>
    intro used acc groups usedF h
    unfold processGroups at h
    simp only [Except.ok.injEq, Prod.mk.injEq] at h
    obtain ⟨h1, h2⟩ := h
    subst h1; subst h2
    exact ⟨[], by simp, by simp, by simp, fun hh => hh⟩
  | cons g rest ih =>
    intro used acc groups usedF h
    unfold processGroups at h
    cases hg : processOneGroup m diffs g used with
    | error e => rw [hg] at h; simp at h
    | ok p =>
      obtain ⟨og, used₁⟩ := p
      rw [hg] at h
      obtain ⟨hn, hs, hd⟩ := processOneGroup_spec hg
      cases og with
      | none =>
        have hu : used₁ = used := hn rfl
        rw [hu] at h
        simp only [] at h
        exact ih used acc groups usedF h
      | some cg =>
        obtain ⟨hu, hne, hmem⟩ := hs cg rfl
        simp only [] at h
        obtain ⟨ng, k1, k2, k3, k4⟩ := ih used₁ (acc ++ [cg]) groups usedF h
        refine ⟨cg :: ng, ?_, ?_, ?_, ?_⟩
        · rw [k1, List.append_assoc]
          rfl
        · rw [k2, hu, List.flatMap_cons, List.append_assoc]
        · intro f hf
          rw [List.flatMap_cons, List.mem_append] at hf
          rcases hf with hf | hf
          · exact hmem f hf
          · exact k3 f hf
        · intro hnd
          exact k4 (hd hnd)

theorem getAssoc_mem {α : Type} :
    ∀ (m : List (String × α)) (k : String) (v : α),
      getAssoc m k = some v → (k, v) ∈ m := by
  intro m
  induction m with
  | nil => intro k v h; cases h
  | cons p rest ih =>
    intro k v h
    obtain ⟨a, b⟩ := p
    unfold getAssoc at h
    by_cases hp : a = k
    · rw [if_pos hp] at h
      injection h with h'
      subst h'
      subst hp
      exact List.mem_cons_self _ _
    · rw [if_neg hp] at h
      exact List.mem_cons_of_mem _ (ih k v h)

theorem buildSanitizedMap_values :
    ∀ (ss : List String) (ds : List GitDiff) (m : List (String × String)),
      buildSanitizedMap ss ds = .ok m → ∀ p ∈ m, p.2 ∈ ds.map GitDiff.file := by
  intro ss
  induction ss with
  | nil =>
    intro ds m h p hp
    unfold buildSanitizedMap at h
    injection h with h'
    subst h'
    cases hp
  | cons s ss ih =>
    intro ds m h p hp
    cases ds with
    | nil =>
      unfold buildSanitizedMap at h
      simp at h
    | cons d ds' =>
      unfold buildSanitizedMap at h
      cases hb : buildSanitizedMap ss ds' with
      | error e => rw [hb] at h; simp [Except.map] at h
      | ok m' =>
        rw [hb] at h
        simp only [Except.map, Except.ok.injEq] at h
        subst h
        rcases List.mem_cons.mp hp with rfl | hp'
        · simp [List.map_cons]
        · rw [List.map_cons]
          exact List.mem_cons_of_mem _ (ih ds' m' hb p hp')

theorem used_filter_perm (L used : List String) (hL : L.Nodup) (hu : used.Nodup)
    (hsub : ∀ f ∈ used, f ∈ L) :
    (used ++ L.filter fun f => f ∉ used).Perm L := by
  have hperm := List.filter_append_perm (fun f => decide (f ∈ used)) L
  have h2 : used.Perm (L.filter fun f => decide (f ∈ used)) := by
    rw [List.perm_ext_iff_of_nodup hu (hL.filter _)]
    intro a
    simp only [List.mem_filter, decide_eq_true_eq]
    exact ⟨fun ha => ⟨hsub a ha, ha⟩, fun hb => hb.2⟩
  have step2 : List.Perm (used ++ (L.filter fun f => !decide (f ∈ used)))
      ((L.filter fun f => decide (f ∈ used)) ++ (L.filter fun f => !decide (f ∈ used))) :=
    h2.append_right _
  rw [show (fun f => decide (f ∉ used)) = fun f => !decide (f ∈ used) from
    funext fun f => by simp [decide_not]]
  exact step2.trans hperm

theorem map_file_filter (used : List String) (l : List GitDiff) :
    (l.filter fun d => d.file ∉ used).map GitDiff.file
      = (l.map GitDiff.file).filter fun f => f ∉ used := by
  induction l with
  | nil => rfl
  | cons d t ih =>
    by_cases hd : d.file ∈ used
    · simpa [List.filter_cons, hd] using ih
    · simpa [List.filter_cons, hd] using ih

theorem flatMap_singleton_files (l : List GitDiff) :
    ((l.map fun d =>
        ({ files := [d.file], message := generateFallbackMessage d,
           description := none, confidence := (0.6 : Rat) } : CommitGroup)).flatMap
      CommitGroup.files) = l.map GitDiff.file := by
  induction l with
  | nil => rfl
  | cons d t ih => simp [List.flatMap_cons, ih]

/--
C1: whenever `parseAggregatedResponse` succeeds on a non-empty diff list
(with pairwise distinct file paths, as git produces one record per file), the
concatenation of the returned groups' file lists is a permutation of the
input file list — every input file appears in exactly one group, no file in
two groups, none omitted — and the result is the model-claimed groups
followed by exactly one singleton fallback group (deterministic fallback
message, fixed confidence 0.6) for each unclaimed file.
-/
theorem parse_coverage_claim (response : String) (diffs : List GitDiff)
    (sanitizedFiles : List String) (groups : List CommitGroup)
    (hne : diffs ≠ [])
    (hnd : (diffs.map GitDiff.file).Nodup)
    (hok : parseAggregatedResponse response diffs sanitizedFiles = .ok groups) :
    (groups.flatMap CommitGroup.files).Perm (diffs.map GitDiff.file) ∧
    ∃ claimed : List CommitGroup,
      groups = claimed ++
        (diffs.filter fun d => d.file ∉ claimed.flatMap CommitGroup.files).map
          (fun d => { files := [d.file], message := generateFallbackMessage d,
                      description := none, confidence := (0.6 : Rat) }) := by
  unfold parseAggregatedResponse at hok
  cases hcore : parseAggregatedCore response diffs sanitizedFiles with
  | error e => rw [hcore] at hok; simp at hok
  | ok gs =>
    rw [hcore] at hok
    simp only [Except.ok.injEq] at hok
    subst hok
    unfold parseAggregatedCore at hcore
    cases hx : jsonExtract response with
    | none => rw [hx] at hcore; simp at hcore
    | some jstr =>
      rw [hx] at hcore
      simp only [] at hcore
      cases hp : jsonParse jstr with
      | none => rw [hp] at hcore; simp at hcore
      | some parsed =>
        rw [hp] at hcore
        simp only [] at hcore
        cases hgf : jsGet parsed "groups" with
        | error e => rw [hgf] at hcore; simp at hcore
        | ok gf =>
          rw [hgf] at hcore
          simp only [] at hcore
          cases gf with
          | none => simp at hcore
          | some j =>
            cases j with
            | null => simp at hcore
            | bool b => simp at hcore
            | num q => simp at hcore
            | str s => simp at hcore
            | obj fs => simp at hcore
            | arr parsedGroups =>
              cases hb : buildSanitizedMap sanitizedFiles diffs with
              | error e => rw [hb] at hcore; simp at hcore
              | ok m =>
                rw [hb] at hcore
                simp only [] at hcore
                cases hpg : processGroups m diffs parsedGroups [] [] with
                | error e => rw [hpg] at hcore; simp at hcore
                | ok pr =>
                  obtain ⟨pgroups, used⟩ := pr
                  rw [hpg] at hcore
                  simp only [Except.ok.injEq] at hcore
                  obtain ⟨ng, k1, k2, k3, k4⟩ := processGroups_spec m diffs
                    parsedGroups [] [] pgroups used hpg
                  rw [List.nil_append] at k1
                  rw [List.nil_append] at k2
                  subst k1
                  have hu_nodup : used.Nodup := k4 List.nodup_nil
                  have hsub : ∀ f ∈ used, f ∈ diffs.map GitDiff.file := by
                    intro f hf
                    rw [k2] at hf
                    obtain ⟨s, hsf⟩ := k3 f hf
                    have hmem : (s, f) ∈ m :=
                      List.mem_reverse.mp (getAssoc_mem m.reverse s f hsf)
                    exact buildSanitizedMap_values sanitizedFiles diffs m hb (s, f) hmem
                  constructor
                  · rw [← hcore, List.flatMap_append, flatMap_singleton_files,
                      map_file_filter, ← k2]
                    exact used_filter_perm _ _ hnd hu_nodup hsub
                  · refine ⟨pgroups, ?_⟩
                    rw [← hcore]
                    simp only [← k2]

/-- Witness for C1: two input files, a response claiming one of them, a
singleton fallback group appended for the other. -/
theorem parse_coverage_claim_witness :
    ((parseAggregatedCoverageWitnessGroups.flatMap CommitGroup.files).Perm
      (List.map GitDiff.file
        [⟨"a.ts", 1, 0, "x", false, false, false, none⟩,
         ⟨"b.ts", 2, 3, "y", false, false, false, none⟩])) ∧
    ∃ claimed : List CommitGroup,
      parseAggregatedCoverageWitnessGroups = claimed ++
        (List.filter (fun d => d.file ∉ claimed.flatMap CommitGroup.files)
          [⟨"a.ts", 1, 0, "x", false, false, false, none⟩,
           ⟨"b.ts", 2, 3, "y", false, false, false, none⟩]).map
          (fun d => { files := [d.file], message := generateFallbackMessage d,
                      description := none, confidence := (0.6 : Rat) }) :=
  parse_coverage_claim
    "\x7b\"groups\":[\x7b\"files\":[\"a.ts\"],\"message\":\"Updated the parsing helpers carefully\"\x7d]\x7d"
    [⟨"a.ts", 1, 0, "x", false, false, false, none⟩,
     ⟨"b.ts", 2, 3, "y", false, false, false, none⟩]
    ["a.ts", "b.ts"] parseAggregatedCoverageWitnessGroups
    (by decide) (by decide) (by rfl)

/--
C5: `generateKey` is invariant under permutation of the diff list (the
per-file composites are sorted before hashing) and under whitespace-only
changes to any diff's raw text (consecutive whitespace collapsed and
leading/trailing whitespace removed before hashing); and the key it returns
is always a 16-character hexadecimal string.
-/
theorem cache_key_stability_claim :
    (∀ d₁ d₂ : List GitDiff, d₁.Perm d₂ → generateKey d₁ = generateKey d₂) ∧
    (∀ d₁ d₂ : List GitDiff,
      List.Forall₂ (fun a b => a.file = b.file ∧ a.additions = b.additions ∧
        a.deletions = b.deletions ∧
        jsTrim (wsCollapse a.changes) = jsTrim (wsCollapse b.changes)) d₁ d₂ →
      generateKey d₁ = generateKey d₂) ∧
    (∀ diffs : List GitDiff, (generateKey diffs).length = 16 ∧
      ∀ c ∈ (generateKey diffs).data, c ∈ "0123456789abcdef".data) :=
  ⟨fun _ _ h => generateKey_perm h, fun _ _ h => generateKey_ws h, generateKey_hex⟩

/-- Witness for C5: a two-element swap, a whitespace-only perturbation, and
the key length, at concrete diffs. -/
theorem cache_key_stability_claim_witness :
    generateKey [⟨"a.ts", 1, 2, "x  y", false, false, false, none⟩,
                 ⟨"b.ts", 0, 0, "", false, false, false, none⟩]
      = generateKey [⟨"b.ts", 0, 0, "", false, false, false, none⟩,
                     ⟨"a.ts", 1, 2, "x  y", false, false, false, none⟩] ∧
    generateKey [⟨"a.ts", 1, 2, "x  y", false, false, false, none⟩]
      = generateKey [⟨"a.ts", 1, 2, " x y", false, false, false, none⟩] ∧
    (generateKey [⟨"a.ts", 1, 2, "x  y", false, false, false, none⟩]).length = 16 :=
  ⟨cache_key_stability_claim.1 _ _
      (List.Perm.swap (⟨"b.ts", 0, 0, "", false, false, false, none⟩ : GitDiff)
        (⟨"a.ts", 1, 2, "x  y", false, false, false, none⟩ : GitDiff) []),
   cache_key_stability_claim.2.1 _ _
      (List.Forall₂.cons ⟨rfl, rfl, rfl, by decide⟩ List.Forall₂.nil),
   (cache_key_stability_claim.2.2 _).1⟩

end CommitX
